import Mathlib

/-!
Verification of the Figma sync script (`scripts/figma-sync.js`).

Strings from the JavaScript source are modelled as lists of Unicode code
points (`JSStr := List Nat`).  Each definition below is a shallow embedding
of the correspondingly named function of the source file; JS numbers are
modelled as `ℚ` (the script only performs exact decimal arithmetic on the
values the claims concern), and `Math.round` as `⌊x + 1/2⌋`.
-/

/-- JavaScript strings, as lists of Unicode code points. -/
abbrev JSStr : Type := List Nat

/-- Encode a Lean string literal as a `JSStr`. -/
def jstr (s : String) : JSStr := s.data.map Char.toNat

/-- Code points of the ASCII decimal digits. -/
def isDigitCP (c : Nat) : Bool := 48 ≤ c && c ≤ 57

/-- Code points of ASCII letters. -/
def isAlphaCP (c : Nat) : Bool := (65 ≤ c && c ≤ 90) || (97 ≤ c && c ≤ 122)

/-- The character class `[a-zA-Z0-9_-]` of `sanitizeScssName` (source line 99). -/
def isValidScssCP (c : Nat) : Bool := isAlphaCP c || isDigitCP c || c == 95 || c == 45

/-- The emoji code-point ranges stripped by `sanitizeScssName` (source line 95). -/
def isEmojiCP (c : Nat) : Bool :=
  (0x1F300 ≤ c && c ≤ 0x1F9FF) || (0x2600 ≤ c && c ≤ 0x26FF) ||
  (0x2700 ≤ c && c ≤ 0x27BF) || (0x1F000 ≤ c && c ≤ 0x1F02F) ||
  (0x1F0A0 ≤ c && c ≤ 0x1F0FF) || (0x1F100 ≤ c && c ≤ 0x1F64F) ||
  (0x1F680 ≤ c && c ≤ 0x1F6FF)

/-- Step 1 of `sanitizeScssName`: remove emoji code points. -/
def stripEmoji (s : JSStr) : JSStr := List.filter (fun c => !isEmojiCP c) s

/-- Step 2: `replace(/\x2f/g, '-')` — forward slashes become hyphens. -/
def replaceSlashes (s : JSStr) : JSStr := List.map (fun c => if c == 47 then 45 else c) s

/-- Step 3: every character outside `[a-zA-Z0-9_-]` becomes a hyphen. -/
def replaceInvalid (s : JSStr) : JSStr :=
  List.map (fun c => if isValidScssCP c then c else 45) s

/-- Step 4: collapse each run of consecutive hyphens to a single hyphen. -/
def collapseHyphens : List Nat → List Nat
  | [] => []
  | [c] => [c]
  | a :: b :: t =>
    if a == 45 && b == 45 then collapseHyphens (b :: t)
    else a :: collapseHyphens (b :: t)

/-- Remove a trailing run of hyphens (the `-+$` alternative of step 5). -/
def dropTrailingHyphens : List Nat → List Nat
  | [] => []
  | c :: t =>
    match dropTrailingHyphens t with
    | [] => if c == 45 then [] else [c]
    | r => c :: r

/-- Step 5: `replace(/^-+|-+$/g, '')` — trim leading and trailing hyphens. -/
def trimHyphens (s : JSStr) : JSStr :=
  dropTrailingHyphens (List.dropWhile (fun c => c == 45) s)

/-- Step 6: `replace(/^(\d)/, '_$1')` — prepend an underscore before a leading digit. -/
def prefixDigit : List Nat → List Nat
  | [] => []
  | c :: t => if isDigitCP c then 95 :: c :: t else c :: t

/-- `sanitizeScssName` (source lines 92–108): normalise an arbitrary design-tool
string into a valid SCSS identifier, with fallback token `unnamed`. -/
def sanitizeScssName (s : JSStr) : JSStr :=
  let r := prefixDigit (trimHyphens (collapseHyphens (replaceInvalid (replaceSlashes (stripEmoji s)))))
  if r = ([] : List Nat) then jstr "unnamed" else r

/-- The regular expression `^[a-zA-Z_][a-zA-Z0-9_-]*$` of the spec. -/
def matchesScssIdent : JSStr → Bool
  | [] => false
  | c :: t => (isAlphaCP c || c == 95) && List.all t isValidScssCP

/-! ### Structural lemmas about the sanitizer steps -/

theorem mem_collapseHyphens : ∀ (l : List Nat) (c : Nat), c ∈ collapseHyphens l → c ∈ l
  | [], _, h => h
  | [_], _, h => h
  | a :: b :: t, c, h => by
    unfold collapseHyphens at h
    split at h
    · exact List.mem_cons_of_mem a (mem_collapseHyphens (b :: t) c h)
    · rcases List.mem_cons.mp h with h1 | h2
      · exact h1 ▸ List.mem_cons_self _ _
      · exact List.mem_cons_of_mem a (mem_collapseHyphens (b :: t) c h2)

theorem head?_collapseHyphens : ∀ (b : Nat) (t : List Nat),
    (collapseHyphens (b :: t)).head? = some b
  | _, [] => rfl
  | b, c :: t => by
    unfold collapseHyphens
    split
    · rename_i hbc
      have hb : b = 45 ∧ c = 45 := by simpa using hbc
      rw [head?_collapseHyphens c t, hb.1, hb.2]
    · rfl

/-- `noHH l = true` iff `l` has no two adjacent hyphens. -/
def noHH : List Nat → Bool
  | [] => true
  | [_] => true
  | a :: b :: t => !(a == 45 && b == 45) && noHH (b :: t)

theorem noHH_tail {a : Nat} {t : List Nat} (h : noHH (a :: t) = true) : noHH t = true := by
  cases t with
  | nil => rfl
  | cons b r =>
    unfold noHH at h
    exact (Bool.and_elim_right h)

theorem noHH_collapseHyphens : ∀ (l : List Nat), noHH (collapseHyphens l) = true
  | [] => rfl
  | [_] => rfl
  | a :: b :: t => by
    unfold collapseHyphens
    split
    · exact noHH_collapseHyphens (b :: t)
    · rename_i hab
      have hh := head?_collapseHyphens b t
      cases hcb : collapseHyphens (b :: t) with
      | nil => rfl
      | cons x r =>
        have hx : x = b := by rw [hcb] at hh; simpa using hh
        have hr := noHH_collapseHyphens (b :: t)
        rw [hcb] at hr
        subst hx
        unfold noHH
        simp only [Bool.and_eq_true, Bool.not_eq_true']
        exact ⟨by simpa using hab, hr⟩

theorem collapseHyphens_eq_self : ∀ (l : List Nat), noHH l = true → collapseHyphens l = l
  | [], _ => rfl
  | [_], _ => rfl
  | a :: b :: t, h => by
    unfold collapseHyphens
    unfold noHH at h
    simp only [Bool.and_eq_true, Bool.not_eq_true'] at h
    rw [if_neg (by simp [h.1])]
    rw [collapseHyphens_eq_self (b :: t) h.2]

theorem mem_dropTrailingHyphens : ∀ (l : List Nat) (c : Nat),
    c ∈ dropTrailingHyphens l → c ∈ l
  | [], _, h => h
  | a :: t, c, h => by
    unfold dropTrailingHyphens at h
    cases hdt : dropTrailingHyphens t with
    | nil =>
      rw [hdt] at h
      by_cases ha : (a == 45) = true
      · rw [if_pos ha] at h
        exact absurd h (List.not_mem_nil c)
      · rw [if_neg ha] at h
        exact List.mem_cons.mpr (Or.inl (by simpa using h))
    | cons x r =>
      rw [hdt] at h
      rcases List.mem_cons.mp h with h1 | h2
      · exact h1 ▸ List.mem_cons_self _ _
      · exact List.mem_cons_of_mem a (mem_dropTrailingHyphens t c (hdt ▸ h2))

theorem head?_dropTrailingHyphens (a : Nat) (t : List Nat) :
    dropTrailingHyphens (a :: t) = [] ∨ (dropTrailingHyphens (a :: t)).head? = some a := by
  unfold dropTrailingHyphens
  cases hdt : dropTrailingHyphens t with
  | nil =>
    by_cases ha : (a == 45) = true
    · rw [if_pos ha]
      exact Or.inl rfl
    · rw [if_neg ha]
      exact Or.inr rfl
  | cons x r => exact Or.inr rfl

theorem getLast?_dropTrailingHyphens : ∀ (l : List Nat),
    (dropTrailingHyphens l).getLast? ≠ some 45
  | [] => by simp [dropTrailingHyphens]
  | a :: t => by
    unfold dropTrailingHyphens
    cases hdt : dropTrailingHyphens t with
    | nil =>
      by_cases ha : (a == 45) = true
      · rw [if_pos ha]
        simp
      · rw [if_neg ha]
        simp only [List.getLast?_singleton, ne_eq, Option.some.injEq]
        intro h
        exact ha (by simp [h])
    | cons x r =>
      rw [List.getLast?_cons_cons]
      rw [← hdt]
      exact getLast?_dropTrailingHyphens t

theorem noHH_dropTrailingHyphens : ∀ (l : List Nat),
    noHH l = true → noHH (dropTrailingHyphens l) = true
  | [], _ => rfl
  | a :: t, h => by
    unfold dropTrailingHyphens
    cases hdt : dropTrailingHyphens t with
    | nil =>
      by_cases ha : (a == 45) = true
      · rw [if_pos ha]
        rfl
      · rw [if_neg ha]
        rfl
    | cons x r =>
      have hr : noHH (x :: r) = true := hdt ▸ noHH_dropTrailingHyphens t (noHH_tail h)
      cases t with
      | nil => simp [dropTrailingHyphens] at hdt
      | cons y t' =>
        have hx : x = y := by
          rcases head?_dropTrailingHyphens y t' with h1 | h2
          · rw [h1] at hdt; exact absurd hdt (by simp)
          · rw [hdt] at h2; simpa using h2
        subst hx
        unfold noHH at h ⊢
        simp only [Bool.and_eq_true] at h ⊢
        exact ⟨h.1, hr⟩

theorem dropTrailingHyphens_eq_self : ∀ (l : List Nat),
    l.getLast? ≠ some 45 → dropTrailingHyphens l = l
  | [], _ => rfl
  | a :: t, h => by
    unfold dropTrailingHyphens
    cases t with
    | nil =>
      simp only [dropTrailingHyphens]
      have : (a == 45) = false := by
        simp only [List.getLast?_singleton, ne_eq, Option.some.injEq] at h
        simpa using h
      rw [this]
      simp
    | cons y t' =>
      have ht : dropTrailingHyphens (y :: t') = y :: t' :=
        dropTrailingHyphens_eq_self (y :: t') (by rw [← List.getLast?_cons_cons (a := a)]; exact h)
      rw [ht]

theorem head?_dropWhile45 : ∀ (l : List Nat) (c : Nat),
    (List.dropWhile (fun c => c == 45) l).head? = some c → (c == 45) = false
  | [], c, h => by simp at h
  | a :: t, c, h => by
    rw [List.dropWhile_cons] at h
    split at h
    · exact head?_dropWhile45 t c h
    · rename_i ha
      simp only [List.head?_cons, Option.some.injEq] at h
      subst h
      simpa using ha

theorem noHH_dropWhile45 : ∀ (l : List Nat),
    noHH l = true → noHH (List.dropWhile (fun c => c == 45) l) = true
  | [], _ => rfl
  | a :: t, h => by
    rw [List.dropWhile_cons]
    split
    · exact noHH_dropWhile45 t (noHH_tail h)
    · exact h

/-! ### Character-class arithmetic -/

theorem isValidScssCP_iff {c : Nat} : isValidScssCP c = true ↔
    (65 ≤ c ∧ c ≤ 90) ∨ (97 ≤ c ∧ c ≤ 122) ∨ (48 ≤ c ∧ c ≤ 57) ∨ c = 95 ∨ c = 45 := by
  unfold isValidScssCP isAlphaCP isDigitCP
  simp only [Bool.or_eq_true, Bool.and_eq_true, decide_eq_true_eq, beq_iff_eq]
  omega

theorem valid_cp_not_emoji {c : Nat} (h : isValidScssCP c = true) : isEmojiCP c = false := by
  rw [Bool.eq_false_iff]
  intro hme
  rw [isValidScssCP_iff] at h
  simp only [isEmojiCP, Bool.or_eq_true, Bool.and_eq_true, decide_eq_true_eq] at hme
  omega

theorem valid_cp_ne_slash {c : Nat} (h : isValidScssCP c = true) : c ≠ 47 := by
  rw [isValidScssCP_iff] at h
  omega

theorem valid_of_replaceInvalid (s : JSStr) : ∀ c ∈ replaceInvalid s, isValidScssCP c = true := by
  intro c hc
  simp only [replaceInvalid, List.mem_map] at hc
  obtain ⟨x, -, hx⟩ := hc
  subst hx
  by_cases hv : isValidScssCP x = true
  · simp [hv]
  · rw [if_neg hv]
    decide

/-- The shape invariant every sanitizer output satisfies:
nonempty, all characters in `[a-zA-Z0-9_-]`, no double hyphen, the head is
neither a hyphen nor a digit, and the last character is not a hyphen. -/
def SanForm (l : List Nat) : Prop :=
  l ≠ [] ∧ (∀ c ∈ l, isValidScssCP c = true) ∧ noHH l = true ∧
  (∀ c, l.head? = some c → (c == 45) = false ∧ isDigitCP c = false) ∧
  l.getLast? ≠ some 45

theorem sanForm_sanitize (s : JSStr) : SanForm (sanitizeScssName s) := by
  have hv0 : ∀ c ∈ replaceInvalid (replaceSlashes (stripEmoji s)), isValidScssCP c = true :=
    valid_of_replaceInvalid _
  unfold sanitizeScssName trimHyphens
  generalize replaceInvalid (replaceSlashes (stripEmoji s)) = s0 at hv0 ⊢
  have hv1 : ∀ c ∈ collapseHyphens s0, isValidScssCP c = true :=
    fun c hc => hv0 c (mem_collapseHyphens s0 c hc)
  have hn1 : noHH (collapseHyphens s0) = true := noHH_collapseHyphens s0
  generalize collapseHyphens s0 = s1 at hv1 hn1 ⊢
  have hv2 : ∀ c ∈ List.dropWhile (fun c => c == 45) s1, isValidScssCP c = true :=
    fun c hc => hv1 c ((List.dropWhile_sublist _).subset hc)
  have hn2 : noHH (List.dropWhile (fun c => c == 45) s1) = true := noHH_dropWhile45 s1 hn1
  have hh2 : ∀ c, (List.dropWhile (fun c => c == 45) s1).head? = some c → (c == 45) = false :=
    fun c hc => head?_dropWhile45 s1 c hc
  generalize List.dropWhile (fun c => c == 45) s1 = s2 at hv2 hn2 hh2 ⊢
  have hv3 : ∀ c ∈ dropTrailingHyphens s2, isValidScssCP c = true :=
    fun c hc => hv2 c (mem_dropTrailingHyphens s2 c hc)
  have hn3 : noHH (dropTrailingHyphens s2) = true := noHH_dropTrailingHyphens s2 hn2
  have hl3 : (dropTrailingHyphens s2).getLast? ≠ some 45 := getLast?_dropTrailingHyphens s2
  have hh3 : ∀ c, (dropTrailingHyphens s2).head? = some c → (c == 45) = false := by
    intro c hc
    cases hs2c : s2 with
    | nil => rw [hs2c] at hc; simp [dropTrailingHyphens] at hc
    | cons a t =>
      rw [hs2c] at hc
      rcases head?_dropTrailingHyphens a t with h1 | h2
      · rw [h1] at hc; simp at hc
      · rw [hc] at h2
        have : c = a := by simpa using h2
        subst this
        exact hh2 c (by rw [hs2c]; rfl)
  generalize dropTrailingHyphens s2 = s3 at hv3 hn3 hl3 hh3 ⊢
  show SanForm (if prefixDigit s3 = ([] : List Nat) then jstr "unnamed" else prefixDigit s3)
  split
  · unfold SanForm
    exact ⟨by decide, by decide, by decide, by decide, by decide⟩
  · rename_i hpdne
    cases s3 with
    | nil => exact absurd rfl hpdne
    | cons c t =>
      have hcv : isValidScssCP c = true := hv3 c (List.mem_cons_self _ _)
      have hc45 : (c == 45) = false := hh3 c rfl
      by_cases hdg : isDigitCP c = true
      · rw [show prefixDigit (c :: t) = 95 :: c :: t from by
          show (if isDigitCP c = true then 95 :: c :: t else c :: t) = 95 :: c :: t
          rw [if_pos hdg]]
        refine ⟨by simp, ?_, ?_, ?_, ?_⟩
        · intro x hx
          rcases List.mem_cons.mp hx with h1 | h2
          · subst h1; decide
          · exact hv3 x h2
        · unfold noHH
          simp only [Bool.and_eq_true, Bool.not_eq_true']
          exact ⟨by simp, hn3⟩
        · intro x hx
          simp only [List.head?_cons, Option.some.injEq] at hx
          subst hx
          exact ⟨by decide, by decide⟩
        · rw [List.getLast?_cons_cons]
          exact hl3
      · rw [show prefixDigit (c :: t) = c :: t from by
          show (if isDigitCP c = true then 95 :: c :: t else c :: t) = c :: t
          rw [if_neg hdg]]
        refine ⟨by simp, hv3, hn3, ?_, hl3⟩
        intro x hx
        simp only [List.head?_cons, Option.some.injEq] at hx
        subst hx
        exact ⟨hc45, by simpa using hdg⟩

theorem map_eq_self_of_mem {f : Nat → Nat} : ∀ (l : List Nat), (∀ c ∈ l, f c = c) → List.map f l = l
  | [], _ => rfl
  | a :: t, h => by
    rw [List.map_cons, h a (List.mem_cons_self _ _),
      map_eq_self_of_mem t (fun c hc => h c (List.mem_cons_of_mem _ hc))]

theorem sanitize_eq_self_of_sanForm {l : List Nat} (h : SanForm l) : sanitizeScssName l = l := by
  obtain ⟨hne, hval, hnn, hhead, hlast⟩ := h
  have h1 : stripEmoji l = l := by
    unfold stripEmoji
    rw [List.filter_eq_self]
    intro c hc
    simp [valid_cp_not_emoji (hval c hc)]
  have h2 : replaceSlashes l = l := by
    unfold replaceSlashes
    exact map_eq_self_of_mem l (fun c hc => by
      rw [if_neg]
      simpa using valid_cp_ne_slash (hval c hc))
  have h3 : replaceInvalid l = l := by
    unfold replaceInvalid
    exact map_eq_self_of_mem l (fun c hc => by rw [if_pos (hval c hc)])
  have h4 : collapseHyphens l = l := collapseHyphens_eq_self l hnn
  have h5 : List.dropWhile (fun c => c == 45) l = l := by
    cases l with
    | nil => rfl
    | cons c t =>
      rw [List.dropWhile_cons, if_neg]
      simp [hhead c rfl]
  have h6 : dropTrailingHyphens l = l := dropTrailingHyphens_eq_self l hlast
  have h7 : prefixDigit l = l := by
    cases l with
    | nil => rfl
    | cons c t =>
      show (if isDigitCP c = true then 95 :: c :: t else c :: t) = c :: t
      rw [if_neg (by simp [(hhead c rfl).2])]
  unfold sanitizeScssName trimHyphens
  rw [h1, h2, h3, h4, h5, h6, h7, if_neg hne]

/-! ### Claims C1 and C10 -/

theorem matchesScssIdent_of_sanForm {l : List Nat} (h : SanForm l) : matchesScssIdent l = true := by
  obtain ⟨hne, hval, -, hhead, -⟩ := h
  cases l with
  | nil => exact absurd rfl hne
  | cons c t =>
    have hc := hhead c rfl
    have hcv := hval c (List.mem_cons_self _ _)
    unfold matchesScssIdent
    simp only [Bool.and_eq_true, Bool.or_eq_true, List.all_eq_true]
    constructor
    · rw [isValidScssCP_iff] at hcv
      have h45 : c ≠ 45 := by simpa using hc.1
      have hdg : ¬(48 ≤ c ∧ c ≤ 57) := by
        have := hc.2
        simp only [isDigitCP, Bool.and_eq_false_iff] at this
        rcases this with h | h <;> simp only [decide_eq_false_iff_not] at h <;> omega
      unfold isAlphaCP
      simp only [Bool.or_eq_true, Bool.and_eq_true, decide_eq_true_eq, beq_iff_eq]
      omega
    · intro x hx
      exact hval x (List.mem_cons_of_mem _ hx)

/-- **C1.** For every input string, the output of `sanitizeScssName` either
matches `^[a-zA-Z_][a-zA-Z0-9_-]*$` or equals the placeholder `unnamed`, and
no character of the output is an emoji code point or a forward slash. -/
theorem claim_C1_sanitizer_output (s : JSStr) (c : Nat) (hc : c ∈ sanitizeScssName s) :
    (matchesScssIdent (sanitizeScssName s) = true ∨ sanitizeScssName s = jstr "unnamed") ∧
    isEmojiCP c = false ∧ c ≠ 47 := by
  have h := sanForm_sanitize s
  have hv := h.2.1 c hc
  exact ⟨Or.inl (matchesScssIdent_of_sanForm h), valid_cp_not_emoji hv, valid_cp_ne_slash hv⟩

theorem claim_C1_sanitizer_output_witness :
    (matchesScssIdent (sanitizeScssName (jstr "greyscale/w---grey6")) = true ∨
      sanitizeScssName (jstr "greyscale/w---grey6") = jstr "unnamed") ∧
    isEmojiCP 103 = false ∧ (103 : Nat) ≠ 47 :=
  claim_C1_sanitizer_output (jstr "greyscale/w---grey6") 103 (by decide)

/-- **C10.** The sanitizer is idempotent: sanitizing an already-sanitized name
(including the placeholder `unnamed`) returns it unchanged. -/
theorem claim_C10_sanitizer_idempotent (s : JSStr) :
    sanitizeScssName (sanitizeScssName s) = sanitizeScssName s :=
  sanitize_eq_self_of_sanForm (sanForm_sanitize s)

/-! ### JS numeric model: kernel-computable exact rationals -/

/-- Kernel-computable product of two rationals (equals `a * b`, see `jsMul_eq`). -/
def jsMul (a b : ℚ) : ℚ := Rat.divInt (a.num * b.num) (a.den * b.den)

/-- Kernel-computable sum of two rationals (equals `a + b`, see `jsAdd_eq`). -/
def jsAdd (a b : ℚ) : ℚ := Rat.divInt (a.num * b.den + b.num * a.den) (a.den * b.den)

/-- `Math.round`: round half toward `+∞`, i.e. `⌊x + 1/2⌋` (see `jsRound_eq`). -/
def jsRound (q : ℚ) : ℤ := Rat.floor (jsAdd q (Rat.divInt 1 2))

theorem jsMul_eq (a b : ℚ) : jsMul a b = a * b := by
  rw [jsMul, Rat.divInt_eq_div]
  push_cast
  conv_rhs => rw [← Rat.num_div_den a, ← Rat.num_div_den b]
  rw [div_mul_div_comm]

theorem jsAdd_eq (a b : ℚ) : jsAdd a b = a + b := by
  rw [jsAdd, Rat.divInt_eq_div]
  push_cast
  conv_rhs => rw [← Rat.num_div_den a, ← Rat.num_div_den b]
  rw [div_add_div _ _ (Nat.cast_ne_zero.mpr a.den_nz) (Nat.cast_ne_zero.mpr b.den_nz)]
  ring_nf

theorem ratFloor_eq (x : ℚ) : Rat.floor x = Int.floor x := rfl

theorem jsRound_eq (q : ℚ) : jsRound q = Int.floor (q + 1/2) := by
  rw [jsRound, ratFloor_eq, jsAdd_eq]
  norm_num [Rat.divInt_eq_div]

/-! ### `rgbaToHex` (source lines 66–74) -/

/-- Code point of the lowercase hex digit for `n < 16` (as `toString(16)` emits). -/
def hexDigitLower (n : Nat) : Nat := if n < 10 then 48 + n else 87 + n

/-- Code point of the uppercase hex digit for `n < 16`. -/
def hexDigitUpper (n : Nat) : Nat := if n < 10 then 48 + n else 55 + n

/-- `n.toString(16)` digits of a natural number; the fuel argument only
bounds the recursion depth so that the definition is structural. -/
def natToHexAux : Nat → Nat → List Nat
  | 0, n => [hexDigitLower (n % 16)]
  | fuel + 1, n =>
    if n < 16 then [hexDigitLower n]
    else natToHexAux fuel (n / 16) ++ [hexDigitLower (n % 16)]

/-- `n.toString(16)` for a natural number. -/
def natToHex (n : Nat) : List Nat := natToHexAux n n

/-- `v.toString(16)` for a JS integer (negative values get a leading minus). -/
def intToHex (v : ℤ) : List Nat := if v < 0 then 45 :: natToHex v.natAbs else natToHex v.toNat

/-- The zero-padding of the inner `toHex`: a one-character hex string gets a
leading `0`. -/
def padHex (h : List Nat) : List Nat := if h.length = 1 then 48 :: h else h

/-- The inner `toHex` of `rgbaToHex` (source lines 67–70): hex digits of
`Math.round(n * 255)`, zero-padded to two characters. -/
def toHexByte (q : ℚ) : JSStr :=
  padHex (intToHex (jsRound (jsMul q (Rat.divInt 255 1))))

/-- `String.prototype.toUpperCase`, restricted to ASCII (every character it is
applied to here is an ASCII hex digit or `#`). -/
def upperCP (c : Nat) : Nat := if 97 ≤ c ∧ c ≤ 122 then c - 32 else c

/-- `rgbaToHex` (source lines 66–74): `#RRGGBB` uppercased, with the alpha byte
appended after the `toUpperCase` call when `a < 1`. -/
def rgbaToHex (r g b a : ℚ) : JSStr :=
  let hex := List.map upperCP (35 :: (toHexByte r ++ toHexByte g ++ toHexByte b))
  if a < 1 then hex ++ toHexByte a else hex

/-- The rounded 0–255 byte value of a colour channel. -/
def channelByte (q : ℚ) : Nat := (jsRound (jsMul q (Rat.divInt 255 1))).toNat

/-- Modelled from the spec: a channel rendered as two zero-padded uppercase hex
digits of `round(channel*255)`. -/
def specHexByteUpper (q : ℚ) : JSStr :=
  [hexDigitUpper (channelByte q / 16), hexDigitUpper (channelByte q % 16)]

/-- Modelled from the spec: the appended alpha byte, two zero-padded hex digits
of `round(alpha*255)` (the source appends it after `toUpperCase`, so its
digits are the lowercase ones `toString(16)` produces). -/
def specAlphaByte (q : ℚ) : JSStr :=
  [hexDigitLower (channelByte q / 16), hexDigitLower (channelByte q % 16)]

theorem jsRound255_bounds {q : ℚ} (h0 : 0 ≤ q) (h1 : q ≤ 1) :
    0 ≤ jsRound (jsMul q (Rat.divInt 255 1)) ∧ jsRound (jsMul q (Rat.divInt 255 1)) ≤ 255 := by
  have h255 : (Rat.divInt 255 1 : ℚ) = 255 := by
    rw [Rat.divInt_eq_div]
    norm_num
  rw [jsMul_eq, jsRound_eq, h255]
  constructor
  · apply Int.le_floor.mpr
    push_cast
    nlinarith
  · have hlt : (q * 255 + 1/2 : ℚ) < 256 := by nlinarith
    have := Int.floor_lt.mpr (by push_cast; linarith : (q * 255 + 1/2 : ℚ) < ((256 : ℤ) : ℚ))
    omega

theorem channelByte_le {q : ℚ} (h0 : 0 ≤ q) (h1 : q ≤ 1) : channelByte q ≤ 255 := by
  have h := jsRound255_bounds h0 h1
  rw [channelByte]
  exact Int.toNat_le.mpr (by exact_mod_cast h.2)

theorem natToHexAux_small (fuel n : Nat) (h : n < 16) : natToHexAux fuel n = [hexDigitLower n] := by
  cases fuel with
  | zero => rw [natToHexAux, Nat.mod_eq_of_lt h]
  | succ f => rw [natToHexAux, if_pos h]

theorem natToHex_two (n : Nat) (h16 : 16 ≤ n) (h255 : n ≤ 255) :
    natToHex n = [hexDigitLower (n / 16), hexDigitLower (n % 16)] := by
  obtain ⟨f, rfl⟩ : ∃ f, n = f + 1 := ⟨n - 1, by omega⟩
  rw [natToHex, natToHexAux, if_neg (by omega)]
  rw [natToHexAux_small f ((f + 1) / 16) (by omega)]
  rfl

theorem toHexByte_eq {q : ℚ} (h0 : 0 ≤ q) (h1 : q ≤ 1) :
    toHexByte q = [hexDigitLower (channelByte q / 16), hexDigitLower (channelByte q % 16)] := by
  obtain ⟨hlo, hhi⟩ := jsRound255_bounds h0 h1
  have hih : intToHex (jsRound (jsMul q (Rat.divInt 255 1))) = natToHex (channelByte q) := by
    rw [intToHex, if_neg (by omega), channelByte]
  rw [toHexByte, hih]
  have hle : channelByte q ≤ 255 := channelByte_le h0 h1
  by_cases hsm : channelByte q < 16
  · rw [show natToHex (channelByte q) = [hexDigitLower (channelByte q)] from
      natToHexAux_small _ _ hsm]
    rw [padHex, if_pos (by simp)]
    rw [Nat.div_eq_of_lt hsm, Nat.mod_eq_of_lt hsm]
    rfl
  · rw [natToHex_two _ (by omega) hle]
    rw [padHex, if_neg (by simp)]

theorem upperCP_hexLower (d : Nat) (hd : d < 16) :
    upperCP (hexDigitLower d) = hexDigitUpper d := by
  unfold upperCP hexDigitLower hexDigitUpper
  split_ifs <;> omega

theorem map_upperCP_toHexByte {q : ℚ} (h0 : 0 ≤ q) (h1 : q ≤ 1) :
    List.map upperCP (toHexByte q) = specHexByteUpper q := by
  rw [toHexByte_eq h0 h1]
  unfold specHexByteUpper
  have hle := channelByte_le h0 h1
  simp only [List.map_cons, List.map_nil]
  rw [upperCP_hexLower _ (by omega), upperCP_hexLower _ (by omega)]

/-- **C2.** `rgbaToHex` renders each colour channel as a zero-padded uppercase
hex byte of `round(channel*255)` and appends an alpha hex byte exactly when
`a < 1`; in particular the three concrete examples of the spec hold. -/
theorem claim_C2_rgbaToHex (r g b a : ℚ)
    (hr0 : 0 ≤ r) (hr1 : r ≤ 1) (hg0 : 0 ≤ g) (hg1 : g ≤ 1)
    (hb0 : 0 ≤ b) (hb1 : b ≤ 1) (ha0 : 0 ≤ a) (ha1 : a ≤ 1) :
    rgbaToHex r g b a =
      jstr "#" ++ specHexByteUpper r ++ specHexByteUpper g ++ specHexByteUpper b ++
        (if a < 1 then specAlphaByte a else []) ∧
    rgbaToHex 0 0 0 1 = jstr "#000000" ∧
    rgbaToHex 1 1 1 1 = jstr "#FFFFFF" ∧
    rgbaToHex 1 0 0 (1/2) = jstr "#FF000080" := by
  refine ⟨?_, by decide, by decide, ?_⟩
  · unfold rgbaToHex
    simp only [List.map_cons, List.map_append]
    rw [map_upperCP_toHexByte hr0 hr1, map_upperCP_toHexByte hg0 hg1,
      map_upperCP_toHexByte hb0 hb1]
    rw [show upperCP 35 = 35 from rfl]
    rw [show jstr "#" = [35] from by decide]
    split
    · rename_i hlt
      rw [show toHexByte a = specAlphaByte a from toHexByte_eq ha0 ha1]
      simp
    · simp
  · rw [show (1/2 : ℚ) = Rat.divInt 1 2 from by rw [Rat.divInt_eq_div]; norm_num]
    decide

theorem claim_C2_rgbaToHex_witness :
    (rgbaToHex 1 0 0 (1/2) =
      jstr "#" ++ specHexByteUpper 1 ++ specHexByteUpper 0 ++ specHexByteUpper 0 ++
        (if (1/2 : ℚ) < 1 then specAlphaByte (1/2) else []) ∧
    rgbaToHex 0 0 0 1 = jstr "#000000" ∧
    rgbaToHex 1 1 1 1 = jstr "#FFFFFF" ∧
    rgbaToHex 1 0 0 (1/2) = jstr "#FF000080") :=
  claim_C2_rgbaToHex 1 0 0 (1/2) (by norm_num) (by norm_num) (by norm_num) (by norm_num)
    (by norm_num) (by norm_num) (by norm_num) (by norm_num)

/-! ### Figma node-tree data model -/

/-- An RGBA colour object from Figma JSON (the `a` field may be absent). -/
structure ColorRGBA where
  r : ℚ
  g : ℚ
  b : ℚ
  a : Option ℚ
deriving DecidableEq

/-- A paint entry of a node's `fills` array (`type`, `visible`, `color`, `opacity`). -/
structure Fill where
  ftype : JSStr
  visible : Option Bool
  color : Option ColorRGBA
  opacity : Option ℚ
deriving DecidableEq

mutual
/-- A document node: `name`, `type`, `fills`, `styles.fill`, `children`.
(Only the fields the extractors read are modelled.) -/
inductive FNode where
  | mk (name : JSStr) (ntype : JSStr) (fills : List Fill) (stylesFill : Option JSStr)
       (children : FNodeList)
/-- Children lists, as a nested inductive so all recursion is structural. -/
inductive FNodeList where
  | nil
  | cons (n : FNode) (t : FNodeList)
end

def FNode.name : FNode → JSStr
  | .mk nm _ _ _ _ => nm

def FNode.ntype : FNode → JSStr
  | .mk _ ty _ _ _ => ty

def FNode.fills : FNode → List Fill
  | .mk _ _ fl _ _ => fl

def FNode.stylesFill : FNode → Option JSStr
  | .mk _ _ _ sf _ => sf

def FNode.children : FNode → FNodeList
  | .mk _ _ _ _ ch => ch

/-- `x || 1` for an optional JS number: `0` and `undefined` are falsy. -/
def qOr1 : Option ℚ → ℚ
  | some x => if x = 0 then 1 else x
  | none => 1

mutual
/-- `findCardFill` (source lines 284–298): on a node named `Card`, the colour of
the first fill that is `SOLID` and not explicitly invisible; otherwise the
first result found among the children. -/
def findCardFill : FNode → Option ColorRGBA
  | FNode.mk nm _ fl _ ch =>
    let own :=
      if nm = jstr "Card" then
        match fl.find? (fun f => f.ftype == jstr "SOLID" && !(f.visible == some false)) with
        | some f => f.color
        | none => none
      else none
    match own with
    | some c => some c
    | none => findCardFillList ch
def findCardFillList : FNodeList → Option ColorRGBA
  | .nil => none
  | .cons c cs =>
    match findCardFill c with
    | some r => some r
    | none => findCardFillList cs
end

/-- JS line terminators, which `.` does not match. -/
def isLineTermCP (c : Nat) : Bool := c == 10 || c == 13 || c == 8232 || c == 8233

/-- The test `name.match(/^colour\x2f([^\x2f]+)\x2f(.+)$/)` of `traverseNode`
(source line 308): the group capture is the maximal slash-free run after
`colour/`, the shade capture is everything after the following slash
(nonempty, no line terminator). -/
def swatchMatch (name : JSStr) : Option (JSStr × JSStr) :=
  match name with
  | 99 :: 111 :: 108 :: 111 :: 117 :: 114 :: 47 :: rest =>
    let grp := rest.takeWhile (fun c => !(c == 47))
    match rest.dropWhile (fun c => !(c == 47)) with
    | 47 :: shade =>
      if grp ≠ [] ∧ shade ≠ [] ∧ shade.all (fun c => !isLineTermCP c) then
        some (grp, shade)
      else none
    | _ => none
  | _ => none

/-- A colour record produced by `extractColorsFromNodes`. -/
structure NodeColor where
  name : JSStr
  value : JSStr
  group : JSStr
  shade : JSStr
deriving DecidableEq

/-- The body of `traverseNode` that handles the node itself (source lines
305–329): record a new swatch unless its `group/shade` key was already seen. -/
def stepSwatch (n : FNode) (st : List JSStr × List NodeColor) :
    List JSStr × List NodeColor :=
  match swatchMatch n.name with
  | some (grp, shade) =>
    if n.ntype = jstr "INSTANCE" ∨ n.ntype = jstr "FRAME" then
      match findCardFill n with
      | some col =>
        let key := grp ++ (47 :: shade)
        if key ∈ st.1 then st
        else (key :: st.1,
          st.2 ++ [⟨key, rgbaToHex col.r col.g col.b (qOr1 col.a), grp, shade⟩])
      | none => st
    else st
  | none => st

mutual
/-- `traverseNode` (source lines 304–337): handle the node, then the children
in order, threading the `seenColors` set and the `colors` accumulator. -/
def traverseNode : FNode → List JSStr × List NodeColor → List JSStr × List NodeColor
  | n@(FNode.mk _ _ _ _ ch), st => traverseNodeList ch (stepSwatch n st)
def traverseNodeList : FNodeList → List JSStr × List NodeColor → List JSStr × List NodeColor
  | .nil, st => st
  | .cons c cs, st => traverseNodeList cs (traverseNode c st)
end

/-- Style metadata from the file's flat `styles` table. -/
structure StyleMeta where
  styleType : JSStr
  name : JSStr
  description : Option JSStr
deriving DecidableEq

/-- A component entry of the file's `components` table. -/
structure FigComponent where
  name : JSStr
  description : Option JSStr
  key : Option JSStr
  containingStateGroup : Option JSStr
deriving DecidableEq

/-- The parts of a Figma file-JSON the extractors read. -/
structure FileData where
  styles : List (JSStr × StyleMeta)
  components : List (JSStr × FigComponent)
  document : Option FNode

/-- `extractColorsFromNodes` (source lines 277–345). -/
def extractColorsFromNodes (fd : FileData) : List NodeColor :=
  match fd.document with
  | some doc => (traverseNode doc ([], [])).2
  | none => []

/-! ### C9: first-occurrence-wins in `extractColorsFromNodes` -/

/-- The swatch record the node itself would emit, ignoring the seen-set. -/
def ownColorEvent (n : FNode) : List NodeColor :=
  match swatchMatch n.name with
  | some (grp, shade) =>
    if n.ntype = jstr "INSTANCE" ∨ n.ntype = jstr "FRAME" then
      match findCardFill n with
      | some col =>
        [⟨grp ++ (47 :: shade), rgbaToHex col.r col.g col.b (qOr1 col.a), grp, shade⟩]
      | none => []
    else []
  | none => []

mutual
/-- All qualifying swatch records of a node tree, in document order
(parent before children, children in list order). -/
def colorEvents : FNode → List NodeColor
  | FNode.mk nm ty fl sf ch => ownColorEvent (FNode.mk nm ty fl sf ch) ++ colorEventsList ch
def colorEventsList : FNodeList → List NodeColor
  | .nil => []
  | .cons c cs => colorEvents c ++ colorEventsList cs
end

/-- Keep the first record for each `group/shade` key, threading the seen-set. -/
def dedupKeys (seen : List JSStr) : List NodeColor → List JSStr × List NodeColor
  | [] => (seen, [])
  | c :: rest =>
    if c.name ∈ seen then dedupKeys seen rest
    else ((dedupKeys (c.name :: seen) rest).1, c :: (dedupKeys (c.name :: seen) rest).2)

theorem dedupKeys_append : ∀ (l1 l2 : List NodeColor) (seen : List JSStr),
    dedupKeys seen (l1 ++ l2) =
      ((dedupKeys (dedupKeys seen l1).1 l2).1,
        (dedupKeys seen l1).2 ++ (dedupKeys (dedupKeys seen l1).1 l2).2)
  | [], l2, seen => by simp [dedupKeys]
  | c :: rest, l2, seen => by
    simp only [List.cons_append, dedupKeys, List.append_eq]
    by_cases hc : c.name ∈ seen
    · rw [if_pos hc, if_pos hc]
      exact dedupKeys_append rest l2 seen
    · rw [if_neg hc, if_neg hc]
      rw [dedupKeys_append rest l2 (c.name :: seen)]
      simp

theorem stepSwatch_spec (n : FNode) (seen : List JSStr) (acc : List NodeColor) :
    stepSwatch n (seen, acc) =
      ((dedupKeys seen (ownColorEvent n)).1, acc ++ (dedupKeys seen (ownColorEvent n)).2) := by
  unfold stepSwatch ownColorEvent
  split
  · rename_i grp shade hsw
    split
    · split
      · rename_i col _
        by_cases hk : grp ++ (47 :: shade) ∈ seen
        · simp [dedupKeys, hk]
        · simp [dedupKeys, hk]
      · simp [dedupKeys]
    · simp [dedupKeys]
  · simp [dedupKeys]

mutual
theorem traverseNode_spec : ∀ (n : FNode) (seen : List JSStr) (acc : List NodeColor),
    traverseNode n (seen, acc) =
      ((dedupKeys seen (colorEvents n)).1, acc ++ (dedupKeys seen (colorEvents n)).2)
  | FNode.mk nm ty fl sf ch, seen, acc => by
    rw [traverseNode, stepSwatch_spec, colorEvents]
    rw [traverseNodeList_spec ch]
    rw [dedupKeys_append]
    simp
theorem traverseNodeList_spec : ∀ (ns : FNodeList) (seen : List JSStr) (acc : List NodeColor),
    traverseNodeList ns (seen, acc) =
      ((dedupKeys seen (colorEventsList ns)).1, acc ++ (dedupKeys seen (colorEventsList ns)).2)
  | .nil, seen, acc => by simp [traverseNodeList, colorEventsList, dedupKeys]
  | .cons c cs, seen, acc => by
    rw [traverseNodeList, colorEventsList, traverseNode_spec c seen acc]
    rw [traverseNodeList_spec cs]
    rw [dedupKeys_append]
    simp
end

theorem dedupKeys_mem_spec : ∀ (evs : List NodeColor) (seen : List JSStr) (r : NodeColor),
    r ∈ (dedupKeys seen evs).2 →
      r.name ∉ seen ∧ evs.find? (fun e => e.name == r.name) = some r
  | [], seen, r, h => by simp [dedupKeys] at h
  | c :: rest, seen, r, h => by
    simp only [dedupKeys] at h
    by_cases hc : c.name ∈ seen
    · rw [if_pos hc] at h
      obtain ⟨hns, hfind⟩ := dedupKeys_mem_spec rest seen r h
      refine ⟨hns, ?_⟩
      rw [List.find?_cons_of_neg, hfind]
      simp only [beq_iff_eq]
      intro heq
      exact hns (heq ▸ hc)
    · rw [if_neg hc] at h
      rcases List.mem_cons.mp h with h1 | h2
      · subst h1
        refine ⟨hc, ?_⟩
        rw [List.find?_cons_of_pos]
        simp
      · obtain ⟨hns, hfind⟩ := dedupKeys_mem_spec rest (c.name :: seen) r h2
        have hne : r.name ≠ c.name := fun heq => hns (by rw [heq]; exact List.mem_cons_self _ _)
        refine ⟨fun hs => hns (List.mem_cons_of_mem _ hs), ?_⟩
        rw [List.find?_cons_of_neg, hfind]
        simp only [beq_iff_eq]
        exact fun heq => hne heq.symm

theorem dedupKeys_nodup : ∀ (evs : List NodeColor) (seen : List JSStr),
    ((dedupKeys seen evs).2.map NodeColor.name).Nodup
  | [], seen => by simp [dedupKeys]
  | c :: rest, seen => by
    simp only [dedupKeys]
    by_cases hc : c.name ∈ seen
    · rw [if_pos hc]
      exact dedupKeys_nodup rest seen
    · rw [if_neg hc]
      simp only [List.map_cons, List.nodup_cons]
      refine ⟨?_, dedupKeys_nodup rest (c.name :: seen)⟩
      intro hmem
      obtain ⟨r, hr, hrn⟩ := List.mem_map.mp hmem
      have := (dedupKeys_mem_spec rest (c.name :: seen) r hr).1
      exact this (hrn ▸ List.mem_cons_self _ _)

/-- The qualifying swatch records of a file, in document order. -/
def colorEventsFd (fd : FileData) : List NodeColor :=
  match fd.document with
  | some doc => colorEvents doc
  | none => []

/-- **C9.** In `extractColorsFromNodes` the first swatch instance in document
order wins: the returned list has at most one record per `group/shade` key, and
each returned record is the first qualifying record of the document for its
key. -/
theorem claim_C9_first_swatch_wins (fd : FileData) (r : NodeColor)
    (hr : r ∈ extractColorsFromNodes fd) :
    ((extractColorsFromNodes fd).map NodeColor.name).Nodup ∧
    (colorEventsFd fd).find? (fun e => e.name == r.name) = some r := by
  cases hdoc : fd.document with
  | none =>
    simp only [extractColorsFromNodes, hdoc] at hr
    exact absurd hr (List.not_mem_nil r)
  | some doc =>
    simp only [extractColorsFromNodes, colorEventsFd, hdoc] at hr ⊢
    rw [traverseNode_spec doc [] []] at hr ⊢
    simp only [List.nil_append] at hr ⊢
    exact ⟨dedupKeys_nodup _ _, (dedupKeys_mem_spec _ _ _ hr).2⟩

/-- Concrete file: two swatch instances share the key `red/500`; the first has
a red card, the second a green card. -/
def exSwatchFd : FileData :=
  ⟨[], [],
    some (FNode.mk (jstr "Swatches") (jstr "FRAME") [] none
      (.cons (FNode.mk (jstr "colour/red/500") (jstr "INSTANCE") [] none
          (.cons (FNode.mk (jstr "Card") (jstr "RECTANGLE")
            [⟨jstr "SOLID", none, some ⟨1, 0, 0, none⟩, none⟩] none .nil) .nil))
        (.cons (FNode.mk (jstr "colour/red/500") (jstr "INSTANCE") [] none
            (.cons (FNode.mk (jstr "Card") (jstr "RECTANGLE")
              [⟨jstr "SOLID", none, some ⟨0, 1, 0, none⟩, none⟩] none .nil) .nil))
          .nil)))⟩

theorem claim_C9_first_swatch_wins_witness :
    ((extractColorsFromNodes exSwatchFd).map NodeColor.name).Nodup ∧
    (colorEventsFd exSwatchFd).find?
        (fun e => e.name == (⟨jstr "red/500", jstr "#FF0000", jstr "red", jstr "500"⟩ : NodeColor).name) =
      some ⟨jstr "red/500", jstr "#FF0000", jstr "red", jstr "500"⟩ :=
  claim_C9_first_swatch_wins exSwatchFd
    ⟨jstr "red/500", jstr "#FF0000", jstr "red", jstr "500"⟩ (by decide)

/-! ### C3: the legacy Styles-API colour extractor (source lines 619–664) -/

/-- The per-node update of `findStyleColors` (source lines 636–649): if the
node attaches a tabled fill-style id and its first fill is solid with a
colour, (re)record that style's value — with no first-seen guard. -/
def stepStyleFill (inTable : JSStr → Bool) (n : FNode) (m : JSStr → Option JSStr) :
    JSStr → Option JSStr :=
  match n.stylesFill with
  | some sid =>
    if inTable sid then
      match n.fills.head? with
      | some fill =>
        if fill.ftype = jstr "SOLID" then
          match fill.color with
          | some col => fun id =>
              if id = sid then some (rgbaToHex col.r col.g col.b (qOr1 fill.opacity))
              else m id
          | none => m
        else m
      | none => m
    else m
  | none => m

mutual
/-- `findStyleColors` (source lines 635–654): preorder walk updating the map. -/
def findStyleColors (inTable : JSStr → Bool) :
    FNode → (JSStr → Option JSStr) → JSStr → Option JSStr
  | n@(FNode.mk _ _ _ _ ch), m => findStyleColorsList inTable ch (stepStyleFill inTable n m)
def findStyleColorsList (inTable : JSStr → Bool) :
    FNodeList → (JSStr → Option JSStr) → JSStr → Option JSStr
  | .nil, m => m
  | .cons c cs, m => findStyleColorsList inTable cs (findStyleColors inTable c m)
end

/-- The update event the node itself contributes (style id, resolved hex). -/
def ownStyleEvent (inTable : JSStr → Bool) (n : FNode) : List (JSStr × JSStr) :=
  match n.stylesFill with
  | some sid =>
    if inTable sid then
      match n.fills.head? with
      | some fill =>
        if fill.ftype = jstr "SOLID" then
          match fill.color with
          | some col => [(sid, rgbaToHex col.r col.g col.b (qOr1 fill.opacity))]
          | none => []
        else []
      | none => []
    else []
  | none => []

mutual
/-- All style-value update events of a node tree, in document order. -/
def styleEvents (inTable : JSStr → Bool) : FNode → List (JSStr × JSStr)
  | FNode.mk nm ty fl sf ch =>
    ownStyleEvent inTable (FNode.mk nm ty fl sf ch) ++ styleEventsList inTable ch
def styleEventsList (inTable : JSStr → Bool) : FNodeList → List (JSStr × JSStr)
  | .nil => []
  | .cons c cs => styleEvents inTable c ++ styleEventsList inTable cs
end

/-- Apply update events to a style map, left to right (later events overwrite). -/
def applyStyleEvents (evs : List (JSStr × JSStr)) (m : JSStr → Option JSStr) :
    JSStr → Option JSStr :=
  evs.foldl (fun acc e => fun id => if id = e.1 then some e.2 else acc id) m

theorem stepStyleFill_spec (inT : JSStr → Bool) (n : FNode) (m : JSStr → Option JSStr) :
    stepStyleFill inT n m = applyStyleEvents (ownStyleEvent inT n) m := by
  unfold stepStyleFill ownStyleEvent
  split
  · split
    · split
      · split
        · split
          · funext id
            simp [applyStyleEvents]
          · simp [applyStyleEvents]
        · simp [applyStyleEvents]
      · simp [applyStyleEvents]
    · simp [applyStyleEvents]
  · simp [applyStyleEvents]

mutual
theorem findStyleColors_spec :
    ∀ (inT : JSStr → Bool) (n : FNode) (m : JSStr → Option JSStr),
      findStyleColors inT n m = applyStyleEvents (styleEvents inT n) m
  | inT, FNode.mk nm ty fl sf ch, m => by
    rw [findStyleColors, stepStyleFill_spec, findStyleColorsList_spec inT ch]
    rw [styleEvents]
    rw [applyStyleEvents, applyStyleEvents, applyStyleEvents, List.foldl_append]
theorem findStyleColorsList_spec :
    ∀ (inT : JSStr → Bool) (ns : FNodeList) (m : JSStr → Option JSStr),
      findStyleColorsList inT ns m = applyStyleEvents (styleEventsList inT ns) m
  | _, .nil, _ => rfl
  | inT, .cons c cs, m => by
    rw [findStyleColorsList, findStyleColors_spec inT c, findStyleColorsList_spec inT cs]
    rw [styleEventsList]
    rw [applyStyleEvents, applyStyleEvents, applyStyleEvents, List.foldl_append]
end

theorem applyStyleEvents_eq :
    ∀ (evs : List (JSStr × JSStr)) (m : JSStr → Option JSStr) (sid : JSStr),
      applyStyleEvents evs m sid =
        match (evs.filter (fun x => x.1 == sid)).getLast? with
        | some x => some x.2
        | none => m sid
  | [], _, _ => rfl
  | e :: rest, m, sid => by
    have hstep : applyStyleEvents (e :: rest) m =
        applyStyleEvents rest (fun id => if id = e.1 then some e.2 else m id) := by
      rw [applyStyleEvents, applyStyleEvents, List.foldl_cons]
    rw [hstep, applyStyleEvents_eq rest _ sid]
    by_cases he : e.1 = sid
    · subst he
      rw [List.filter_cons_of_pos (by simp)]
      cases hfr : rest.filter (fun x => x.1 == e.1) with
      | nil => simp
      | cons y ys =>
        rw [List.getLast?_cons_cons]
        cases hgl : (y :: ys).getLast? with
        | some z => rfl
        | none =>
          exfalso
          simp at hgl
    · rw [List.filter_cons_of_neg (by simpa using he)]
      have hne : (if sid = e.1 then some e.2 else m sid) = m sid :=
        if_neg (fun h => he h.symm)
      rw [hne]

/-- The fill styles listed in the file's style table (source lines 624–631). -/
def fillStyleTable (fd : FileData) : List (JSStr × StyleMeta) :=
  fd.styles.filter (fun p => p.2.styleType == jstr "FILL")

/-- Whether a style id is a tabled fill style (`styleMap[styleId]` truthiness). -/
def fillStyleInTable (fd : FileData) (sid : JSStr) : Bool :=
  (fillStyleTable fd).any (fun p => p.1 == sid)

/-- The final style-id → hex map after `findStyleColors` ran over the document. -/
def resolvedFillMap (fd : FileData) : JSStr → Option JSStr :=
  match fd.document with
  | some doc => findStyleColors (fillStyleInTable fd) doc (fun _ => none)
  | none => fun _ => none

/-- A record returned by `extractColorStyles`. -/
structure ColorStyleRec where
  id : JSStr
  name : JSStr
  description : JSStr
  value : JSStr
deriving DecidableEq

/-- `extractColorStyles` (source lines 619–664): tabled fill styles that got a
value during the walk (`colors.filter(c => c.value)`). -/
def extractColorStyles (fd : FileData) : List ColorStyleRec :=
  (fillStyleTable fd).filterMap (fun p =>
    (resolvedFillMap fd p.1).map (fun v => ⟨p.1, p.2.name, p.2.description.getD [], v⟩))

/-- All fill-style update events of a file's document, in document order. -/
def styleEventsFd (fd : FileData) : List (JSStr × JSStr) :=
  match fd.document with
  | some doc => styleEvents (fillStyleInTable fd) doc
  | none => []

/-- The value attached by the FIRST node in document order — what claim C3 says
is recorded. -/
def firstStyleValue (fd : FileData) (sid : JSStr) : Option JSStr :=
  ((styleEventsFd fd).filter (fun x => x.1 == sid)).head?.map Prod.snd

/-- The value attached by the LAST node in document order — what the code
actually records (no first-seen guard; later writes overwrite). -/
def lastStyleValue (fd : FileData) (sid : JSStr) : Option JSStr :=
  ((styleEventsFd fd).filter (fun x => x.1 == sid)).getLast?.map Prod.snd

/-- Concrete document: two rectangles both attach fill style `S1`, the first
with a red solid fill, the second with a blue one. -/
def exStyleFd : FileData :=
  ⟨[(jstr "S1", ⟨jstr "FILL", jstr "colour-red", none⟩)], [],
    some (FNode.mk (jstr "Page") (jstr "CANVAS") [] none
      (.cons (FNode.mk (jstr "A") (jstr "RECTANGLE")
          [⟨jstr "SOLID", none, some ⟨1, 0, 0, none⟩, none⟩] (some (jstr "S1")) .nil)
        (.cons (FNode.mk (jstr "B") (jstr "RECTANGLE")
            [⟨jstr "SOLID", none, some ⟨0, 0, 1, none⟩, none⟩] (some (jstr "S1")) .nil)
          .nil)))⟩

/-- **C3 is false as stated**: in `exStyleFd` the first node attaching `S1`
resolves it to red `#FF0000`, but the extractor records blue `#0000FF` from the
second node — later attachments do change the recorded value. -/
theorem claim_C3_counterexample :
    resolvedFillMap exStyleFd (jstr "S1") = some (jstr "#0000FF") ∧
    firstStyleValue exStyleFd (jstr "S1") = some (jstr "#FF0000") ∧
    resolvedFillMap exStyleFd (jstr "S1") ≠ firstStyleValue exStyleFd (jstr "S1") := by
  refine ⟨by decide, by decide, by decide⟩

/-- **C3 (amended).** For every fill style id in the file's style table, the
recorded value is the one from the LAST node in document order that attaches
that style id to its fill property (with a solid first fill); nodes visited
later overwrite earlier values. -/
theorem claim_C3_amended_last_attachment_wins (fd : FileData) (sid : JSStr) :
    resolvedFillMap fd sid = lastStyleValue fd sid := by
  cases hdoc : fd.document with
  | none => simp [resolvedFillMap, lastStyleValue, styleEventsFd, hdoc]
  | some doc =>
    simp only [resolvedFillMap, lastStyleValue, styleEventsFd, hdoc]
    rw [findStyleColors_spec, applyStyleEvents_eq]
    cases hgl : ((styleEvents (fillStyleInTable fd) doc).filter (fun x => x.1 == sid)).getLast? with
    | some x => simp
    | none => simp

/-! ### C7: the Variables-API extractor (source lines 124–190) -/

/-- A variable value under one mode: an RGBA colour object, or anything else
(the source distinguishes them by the check `'r' in colorValue`). -/
inductive VarValue where
  | color (c : ColorRGBA)
  | other
deriving DecidableEq

/-- A collection entry of `meta.variableCollections`. -/
structure VarCollection where
  name : JSStr
  modes : List JSStr
  defaultModeId : Option JSStr
deriving DecidableEq

/-- A variable entry of `meta.variables`. -/
structure FigVariable where
  name : JSStr
  resolvedType : JSStr
  variableCollectionId : JSStr
  valuesByMode : List (JSStr × VarValue)
  description : Option JSStr
deriving DecidableEq

/-- The payload of the Variables endpoint: `data.meta` when present.
(`vars` models the JSON field `variables`, whose name Lean reserves.) -/
structure VarMeta where
  variableCollections : List (JSStr × VarCollection)
  vars : List (JSStr × FigVariable)
deriving DecidableEq

/-- A response of the Variables endpoint: HTTP status plus parsed body. -/
structure VarsResponse where
  status : Nat
  meta : Option VarMeta
deriving DecidableEq

/-- `response.ok`: the status is in the 2xx range. -/
def responseOk (status : Nat) : Bool := 200 ≤ status && status ≤ 299

/-- A colour variable record pushed by `extractVariables`. -/
structure VariableColor where
  id : JSStr
  name : JSStr
  collectionName : JSStr
  collectionId : JSStr
  value : JSStr
  description : JSStr
deriving DecidableEq

/-- The `{ colors, collections }` object `extractVariables` returns. -/
structure VarsResult where
  colors : List VariableColor
  collections : List (JSStr × VarCollection)
deriving DecidableEq

/-- The empty result `{ colors: [], collections: {} }`. -/
def emptyVarsResult : VarsResult := ⟨[], []⟩

/-- JS object property lookup on an association list. -/
def alookup {α : Type} (l : List (JSStr × α)) (k : JSStr) : Option α :=
  (l.find? (fun p => p.1 == k)).map Prod.snd

/-- `extractVariables` (source lines 124–190) as a function of the endpoint
response, returning the result and the console messages it prints (message
texts abbreviated).  A 403 returns the empty result with no message; any other
non-2xx prints a warning and returns the empty result; a body without `meta`
likewise; otherwise every `COLOR` variable whose value under the default (or
first) mode is a colour object becomes a record. -/
def extractVariables (resp : VarsResponse) : VarsResult × List JSStr :=
  if resp.status = 403 then (emptyVarsResult, [])
  else if !responseOk resp.status then
    (emptyVarsResult, [jstr "Variables API error"])
  else
    match resp.meta with
    | none => (emptyVarsResult, [jstr "No variables found in file"])
    | some meta =>
      let collections := meta.variableCollections
      let colors := meta.vars.filterMap (fun p =>
        let v := p.2
        if v.resolvedType = jstr "COLOR" then
          let collection := alookup collections v.variableCollectionId
          let dmi : Option JSStr := collection.bind (fun c => c.defaultModeId)
          let modeId : Option JSStr :=
            match dmi with
            | some d => if d = [] then (v.valuesByMode.map Prod.fst).head? else some d
            | none => (v.valuesByMode.map Prod.fst).head?
          match modeId.bind (fun mid => alookup v.valuesByMode mid) with
          | some (VarValue.color col) =>
            some ⟨p.1, v.name,
              (match collection with
               | some c => if c.name = [] then jstr "Unknown" else c.name
               | none => jstr "Unknown"),
              v.variableCollectionId,
              rgbaToHex col.r col.g col.b (qOr1 col.a),
              v.description.getD []⟩
          | _ => none
        else none)
      (⟨colors, collections⟩, [jstr "Found color variables"])

/-- Which colour source `sync` ends up writing (source lines 1170–1198). -/
inductive ColorStrategy where
  | variablesApi
  | stylesApi
  | nodeStructure
  | noneFound
deriving DecidableEq

/-- The colour-extraction fallback chain of `sync` (source lines 1170–1198):
Variables API if it yielded colours, else legacy styles, else node structure. -/
def syncColorStrategy (resp : VarsResponse) (fd : FileData) : ColorStrategy :=
  if ((extractVariables resp).1.colors).length > 0 then ColorStrategy.variablesApi
  else if (extractColorStyles fd).length > 0 then ColorStrategy.stylesApi
  else if (extractColorsFromNodes fd).length > 0 then ColorStrategy.nodeStructure
  else ColorStrategy.noneFound

/-- **C7.** A 403 from the Variables endpoint yields the empty result and no
console message at all (in particular no error); every other non-2xx status
also yields the empty result rather than aborting; hence on a 403 the caller
falls back to the legacy-styles / node-structure strategies. -/
theorem claim_C7_variables_403_fallback (resp : VarsResponse) (fd : FileData) :
    (resp.status = 403 → extractVariables resp = (emptyVarsResult, [])) ∧
    (responseOk resp.status = false → (extractVariables resp).1 = emptyVarsResult) ∧
    (resp.status = 403 → syncColorStrategy resp fd ≠ ColorStrategy.variablesApi) := by
  refine ⟨?_, ?_, ?_⟩
  · intro h403
    rw [extractVariables, if_pos h403]
  · intro hnok
    rw [extractVariables]
    by_cases h403 : resp.status = 403
    · rw [if_pos h403]
    · rw [if_neg h403, if_pos (by simp [hnok])]
  · intro h403
    have he : extractVariables resp = (emptyVarsResult, []) := by
      rw [extractVariables, if_pos h403]
    rw [syncColorStrategy, he]
    simp only [emptyVarsResult, List.length_nil, gt_iff_lt, Nat.lt_irrefl, if_false]
    split
    · decide
    · split
      · decide
      · decide

theorem claim_C7_variables_403_fallback_witness :
    extractVariables ⟨403, none⟩ = (emptyVarsResult, []) ∧
    (extractVariables ⟨403, none⟩).1 = emptyVarsResult ∧
    syncColorStrategy ⟨403, none⟩ ⟨[], [], none⟩ ≠ ColorStrategy.variablesApi := by
  have h := claim_C7_variables_403_fallback ⟨403, none⟩ ⟨[], [], none⟩
  exact ⟨h.1 rfl, h.2.1 (by decide), h.2.2 rfl⟩

/-! ### C5: variant filtering in component extraction (source lines 935–979) -/

/-- JS whitespace code points (the `\s` class). -/
def isJsWsCP (c : Nat) : Bool :=
  c == 9 || c == 10 || c == 11 || c == 12 || c == 13 || c == 32 ||
  c == 160 || c == 5760 || (8192 ≤ c && c ≤ 8202) || c == 8232 ||
  c == 8233 || c == 8239 || c == 8287 || c == 12288 || c == 65279

/-- The character class `[A-Za-z0-9\s]` of the variant-name pattern. -/
def isVariantWordCP (c : Nat) : Bool := isAlphaCP c || isDigitCP c || isJsWsCP c

/-- The test of `^[A-Za-z0-9\s]+=[A-Za-z0-9\s]+` (source line 943): a nonempty
word run from the start, then `=`, then at least one word character. -/
def variantPatternTest (s : JSStr) : Bool :=
  match s.dropWhile isVariantWordCP with
  | 61 :: c :: _ => !(s.takeWhile isVariantWordCP).isEmpty && isVariantWordCP c
  | _ => false

/-- `isVariantComponent` (source lines 935–949): a present
`containingStateGroup` or a `Key=Value` name marks a variant. -/
def isVariantComponent (c : FigComponent) : Bool :=
  c.containingStateGroup.isSome || variantPatternTest c.name

/-- ASCII lowering (the case-insensitivity of the `template$` pattern). -/
def lowerCP (c : Nat) : Nat := if 65 ≤ c ∧ c ≤ 90 then c + 32 else c

/-- `config.excludeComponents` of `figma.config.js`: a leading underscore or a
(case-insensitive) `template` suffix. -/
def excludeComponentTest (name : JSStr) : Bool :=
  (match name with
   | 95 :: _ => true
   | _ => false) ||
  List.isPrefixOf (jstr "template").reverse ((name.map lowerCP).reverse)

/-- A component record returned by `extractComponents`. -/
structure ComponentRec where
  id : JSStr
  name : JSStr
  description : JSStr
  key : Option JSStr
deriving DecidableEq

/-- `extractComponents` (source lines 955–979). -/
def extractComponents (fd : FileData) : List ComponentRec :=
  fd.components.filterMap (fun p =>
    if !(excludeComponentTest p.2.name) && !(isVariantComponent p.2) then
      some ⟨p.1, p.2.name, p.2.description.getD [], p.2.key⟩
    else none)

/-- Concrete components table holding `Size=Large` and `Hero Banner`. -/
def exComponentsFd : FileData :=
  ⟨[], [(jstr "1:1", ⟨jstr "Size=Large", none, none, none⟩),
        (jstr "2:1", ⟨jstr "Hero Banner", none, none, none⟩)], none⟩

/-- **C5.** Extraction keeps exactly the components that are neither excluded
by the configured patterns nor variants (present `containingStateGroup` or a
`Key=Value` name); `Size=Large` is a variant, and of the two components
`Size=Large` and `Hero Banner` only `Hero Banner` is extracted. -/
theorem claim_C5_variant_filtering (fd : FileData) (id : JSStr) (c : FigComponent)
    (hmem : (id, c) ∈ fd.components) :
    isVariantComponent c = (c.containingStateGroup.isSome || variantPatternTest c.name) ∧
    (excludeComponentTest c.name = false → isVariantComponent c = false →
      (⟨id, c.name, c.description.getD [], c.key⟩ : ComponentRec) ∈ extractComponents fd) ∧
    (∀ r ∈ extractComponents fd, ∃ id2 c2, (id2, c2) ∈ fd.components ∧
      r = ⟨id2, c2.name, c2.description.getD [], c2.key⟩ ∧
      excludeComponentTest c2.name = false ∧ isVariantComponent c2 = false) ∧
    isVariantComponent ⟨jstr "Size=Large", none, none, none⟩ = true ∧
    extractComponents exComponentsFd = [⟨jstr "2:1", jstr "Hero Banner", [], none⟩] := by
  refine ⟨rfl, ?_, ?_, by decide, by decide⟩
  · intro hx hv
    rw [extractComponents]
    apply List.mem_filterMap.mpr
    refine ⟨(id, c), hmem, ?_⟩
    rw [if_pos (by simp [hx, hv])]
  · intro r hr
    rw [extractComponents] at hr
    obtain ⟨p, hp, heq⟩ := List.mem_filterMap.mp hr
    by_cases hcond : (!(excludeComponentTest p.2.name) && !(isVariantComponent p.2)) = true
    · rw [if_pos hcond] at heq
      simp only [Bool.and_eq_true, Bool.not_eq_true'] at hcond
      exact ⟨p.1, p.2, hp, (Option.some.injEq _ _).mp heq.symm, hcond.1, hcond.2⟩
    · rw [if_neg hcond] at heq
      exact absurd heq (by simp)

theorem claim_C5_variant_filtering_witness :
    (⟨jstr "2:1", jstr "Hero Banner", [], none⟩ : ComponentRec) ∈
      extractComponents exComponentsFd ∧
    isVariantComponent ⟨jstr "Size=Large", none, none, none⟩ = true := by
  have h := claim_C5_variant_filtering exComponentsFd (jstr "2:1")
    ⟨jstr "Hero Banner", none, none, none⟩ (by decide)
  exact ⟨h.2.1 (by decide) (by decide), h.2.2.2.1⟩

/-! ### C4: shade ordering in the SCSS generator (source lines 369–385) -/

/-- Hex digit code points, for the `0x` branch of `parseInt`. -/
def isHexDigitCP (c : Nat) : Bool := isDigitCP c || (97 ≤ c && c ≤ 102) || (65 ≤ c && c ≤ 70)

/-- Decimal digit run → value. -/
def digitsToNat (l : List Nat) : Nat := l.foldl (fun a c => a * 10 + (c - 48)) 0

/-- Value of a hex digit code point. -/
def hexDigitVal (c : Nat) : Nat := if c ≤ 57 then c - 48 else if c ≤ 70 then c - 55 else c - 87

/-- Hex digit run → value. -/
def hexDigitsToNat (l : List Nat) : Nat := l.foldl (fun a c => a * 16 + hexDigitVal c) 0

/-- `parseInt` after whitespace and sign: an optional `0x`/`0X` prefix switches
to hex, otherwise a leading decimal digit run; no digits means `NaN` (`none`). -/
def parseIntCore (sign : Int) (s2 : JSStr) : Option Int :=
  match s2 with
  | 48 :: 120 :: t =>
    let ds := t.takeWhile isHexDigitCP
    if ds.isEmpty then none else some (sign * hexDigitsToNat ds)
  | 48 :: 88 :: t =>
    let ds := t.takeWhile isHexDigitCP
    if ds.isEmpty then none else some (sign * hexDigitsToNat ds)
  | t =>
    let ds := t.takeWhile isDigitCP
    if ds.isEmpty then none else some (sign * digitsToNat ds)

/-- `parseInt(s)` with no radix argument (`none` models `NaN`). -/
def parseIntJS (s : JSStr) : Option Int :=
  match s.dropWhile isJsWsCP with
  | 45 :: t => parseIntCore (-1) t
  | 43 :: t => parseIntCore 1 t
  | t => parseIntCore 1 t

/-- `String.prototype.includes` (the `.includes('base')` test). -/
def containsStr (needle : JSStr) : JSStr → Bool
  | [] => needle.isEmpty
  | c :: t => List.isPrefixOf needle (c :: t) || containsStr needle t

/-- Stable insertion: `x` goes before the first element it compares `≤` to. -/
def insertLe {α : Type} (le : α → α → Bool) (x : α) : List α → List α
  | [] => [x]
  | y :: ys => if le x y then x :: y :: ys else y :: insertLe le x ys

/-- Model of `Array.prototype.sort` with comparator `cmp`, where `le a b` means
`cmp(a,b) ≤ 0`: a stable comparison sort (ES2019 sort is stable; whenever the
comparator is total and transitive on the array's elements, every stable
comparison sort produces this same order). -/
def jsSortStable {α : Type} (le : α → α → Bool) : List α → List α
  | [] => []
  | x :: xs => insertLe le x (jsSortStable le xs)

/-- The comparator of `generateNodeColorScss` (source lines 373–377), read as
the relation `cmp(a,b) ≤ 0`: a base shade sorts first, otherwise
`parseInt(b.shade) - parseInt(a.shade)`, with `NaN` treated as `0` as the
ECMAScript sort specification does. -/
def shadeLe (a b : NodeColor) : Bool :=
  if containsStr (jstr "base") a.shade then true
  else if containsStr (jstr "base") b.shade then false
  else
    match parseIntJS b.shade, parseIntJS a.shade with
    | some pb, some pa => pb - pa ≤ 0
    | _, _ => true

/-- The per-group shade sort of `generateNodeColorScss` (source lines 372–377). -/
def sortShades (l : List NodeColor) : List NodeColor := jsSortStable shadeLe l

/-- The ordering the claim states: entries whose shade contains `base` sort
before all others, and non-base entries are in descending numeric order. -/
def ShadeOrdered (a b : NodeColor) : Prop :=
  containsStr (jstr "base") a.shade = true ∨
  (containsStr (jstr "base") b.shade = false ∧
    ∀ pa pb : Int, parseIntJS a.shade = some pa → parseIntJS b.shade = some pb → pb ≤ pa)

theorem perm_insertLe {α : Type} (le : α → α → Bool) (x : α) :
    ∀ (l : List α), (insertLe le x l).Perm (x :: l)
  | [] => List.Perm.refl _
  | y :: ys => by
    rw [insertLe]
    split
    · exact List.Perm.refl _
    · exact ((perm_insertLe le x ys).cons y).trans (List.Perm.swap x y ys)

theorem perm_jsSortStable {α : Type} (le : α → α → Bool) :
    ∀ (l : List α), (jsSortStable le l).Perm l
  | [] => List.Perm.refl _
  | x :: xs => (perm_insertLe le x (jsSortStable le xs)).trans
      ((perm_jsSortStable le xs).cons x)

theorem pairwise_insertLe {α : Type} (le : α → α → Bool) (x : α) :
    ∀ (l : List α),
      (∀ y ∈ l, le x y = true ∨ le y x = true) →
      (∀ y ∈ l, ∀ z ∈ l, le x y = true → le y z = true → le x z = true) →
      l.Pairwise (fun a b => le a b = true) →
      (insertLe le x l).Pairwise (fun a b => le a b = true)
  | [], _, _, _ => by simp [insertLe]
  | y :: ys, total, htrans, hp => by
    rw [insertLe]
    split
    · rename_i hxy
      refine List.Pairwise.cons ?_ hp
      intro z hz
      rcases List.mem_cons.mp hz with rfl | hzys
      · exact hxy
      · exact htrans y (List.mem_cons_self _ _) z (List.mem_cons_of_mem _ hzys) hxy
          (List.rel_of_pairwise_cons hp hzys)
    · rename_i hxy
      have hyx : le y x = true := by
        rcases total y (List.mem_cons_self _ _) with h | h
        · exact absurd h hxy
        · exact h
      refine List.Pairwise.cons ?_
        (pairwise_insertLe le x ys
          (fun z hz => total z (List.mem_cons_of_mem _ hz))
          (fun z hz w hw => htrans z (List.mem_cons_of_mem _ hz) w (List.mem_cons_of_mem _ hw))
          hp.of_cons)
      intro z hz
      rcases List.mem_cons.mp ((perm_insertLe le x ys).mem_iff.mp hz) with h1 | h2
      · exact h1 ▸ hyx
      · exact List.rel_of_pairwise_cons hp h2
      
theorem pairwise_jsSortStable {α : Type} (le : α → α → Bool) :
    ∀ (l : List α),
      (∀ a ∈ l, ∀ b ∈ l, le a b = true ∨ le b a = true) →
      (∀ a ∈ l, ∀ b ∈ l, ∀ c ∈ l, le a b = true → le b c = true → le a c = true) →
      (jsSortStable le l).Pairwise (fun a b => le a b = true)
  | [], _, _ => List.Pairwise.nil
  | x :: xs, total, htrans => by
    rw [jsSortStable]
    have hmem : ∀ y ∈ jsSortStable le xs, y ∈ xs :=
      fun y hy => (perm_jsSortStable le xs).mem_iff.mp hy
    refine pairwise_insertLe le x (jsSortStable le xs) ?_ ?_ ?_
    · intro y hy
      exact total x (List.mem_cons_self _ _) y (List.mem_cons_of_mem _ (hmem y hy))
    · intro y hy z hz
      exact htrans x (List.mem_cons_self _ _) y (List.mem_cons_of_mem _ (hmem y hy))
        z (List.mem_cons_of_mem _ (hmem z hz))
    · exact pairwise_jsSortStable le xs
        (fun a ha b hb => total a (List.mem_cons_of_mem _ ha) b (List.mem_cons_of_mem _ hb))
        (fun a ha b hb c hc => htrans a (List.mem_cons_of_mem _ ha)
          b (List.mem_cons_of_mem _ hb) c (List.mem_cons_of_mem _ hc))

theorem shadeLe_total (a b : NodeColor) : shadeLe a b = true ∨ shadeLe b a = true := by
  unfold shadeLe
  by_cases ha : containsStr (jstr "base") a.shade = true
  · left
    rw [if_pos ha]
  · by_cases hb : containsStr (jstr "base") b.shade = true
    · right
      rw [if_pos hb]
    · rw [if_neg ha, if_neg hb, if_neg hb, if_neg ha]
      cases hpa : parseIntJS a.shade with
      | none =>
        cases hpb : parseIntJS b.shade with
        | none => left; rfl
        | some pb => left; rfl
      | some pa =>
        cases hpb : parseIntJS b.shade with
        | none => left; rfl
        | some pb =>
          simp only [decide_eq_true_eq]
          omega

theorem shadeLe_trans (a b c : NodeColor)
    (ha : containsStr (jstr "base") a.shade = false → (parseIntJS a.shade).isSome = true)
    (hb : containsStr (jstr "base") b.shade = false → (parseIntJS b.shade).isSome = true)
    (hc : containsStr (jstr "base") c.shade = false → (parseIntJS c.shade).isSome = true) :
    shadeLe a b = true → shadeLe b c = true → shadeLe a c = true := by
  unfold shadeLe
  by_cases hba : containsStr (jstr "base") a.shade = true
  · simp [hba]
  · rw [Bool.not_eq_true] at hba
    by_cases hbb : containsStr (jstr "base") b.shade = true
    · simp [hba, hbb]
    · rw [Bool.not_eq_true] at hbb
      by_cases hbc : containsStr (jstr "base") c.shade = true
      · simp [hbb, hbc]
      · rw [Bool.not_eq_true] at hbc
        obtain ⟨pa, hpa⟩ := Option.isSome_iff_exists.mp (ha hba)
        obtain ⟨pb, hpb⟩ := Option.isSome_iff_exists.mp (hb hbb)
        obtain ⟨pc, hpc⟩ := Option.isSome_iff_exists.mp (hc hbc)
        simp only [hba, hbb, hbc, hpa, hpb, hpc, Bool.false_eq_true, if_false,
          decide_eq_true_eq]
        omega

theorem shadeLe_imp_ordered {a b : NodeColor} (h : shadeLe a b = true) : ShadeOrdered a b := by
  unfold shadeLe at h
  by_cases hba : containsStr (jstr "base") a.shade = true
  · exact Or.inl hba
  · rw [Bool.not_eq_true] at hba
    right
    by_cases hbb : containsStr (jstr "base") b.shade = true
    · rw [if_neg (by simp [hba]), if_pos hbb] at h
      exact absurd h (by simp)
    · rw [Bool.not_eq_true] at hbb
      refine ⟨hbb, ?_⟩
      intro pa pb hpa hpb
      rw [if_neg (by simp [hba]), if_neg (by simp [hbb]), hpa, hpb] at h
      have : pb - pa ≤ 0 := by simpa using h
      omega

/-- One colour group with shades `900`, `500-base`, `100` (values arbitrary). -/
def exShades : List NodeColor :=
  [⟨jstr "g/900", jstr "#111111", jstr "g", jstr "900"⟩,
   ⟨jstr "g/500-base", jstr "#222222", jstr "g", jstr "500-base"⟩,
   ⟨jstr "g/100", jstr "#333333", jstr "g", jstr "100"⟩]

/-- **C4.** Within a colour group whose non-base shade labels all parse to
numbers, the generator's sort is a permutation in which every `base` entry
precedes every non-base entry and non-base entries descend numerically; for
the shades `900`, `500-base`, `100` the order is `500-base, 900, 100`. -/
theorem claim_C4_shade_ordering (l : List NodeColor)
    (hnum : ∀ c ∈ l, containsStr (jstr "base") c.shade = false →
      (parseIntJS c.shade).isSome = true) :
    (sortShades l).Perm l ∧ (sortShades l).Pairwise ShadeOrdered ∧
    sortShades exShades =
      [⟨jstr "g/500-base", jstr "#222222", jstr "g", jstr "500-base"⟩,
       ⟨jstr "g/900", jstr "#111111", jstr "g", jstr "900"⟩,
       ⟨jstr "g/100", jstr "#333333", jstr "g", jstr "100"⟩] := by
  refine ⟨perm_jsSortStable _ _, ?_, by decide⟩
  have hp := pairwise_jsSortStable shadeLe l
    (fun a _ b _ => shadeLe_total a b)
    (fun a haa b hbb c hcc => shadeLe_trans a b c (hnum a haa) (hnum b hbb) (hnum c hcc))
  exact hp.imp (fun h => shadeLe_imp_ordered h)

theorem claim_C4_shade_ordering_witness :
    (sortShades exShades).Perm exShades ∧ (sortShades exShades).Pairwise ShadeOrdered ∧
    sortShades exShades =
      [⟨jstr "g/500-base", jstr "#222222", jstr "g", jstr "500-base"⟩,
       ⟨jstr "g/900", jstr "#111111", jstr "g", jstr "900"⟩,
       ⟨jstr "g/100", jstr "#333333", jstr "g", jstr "100"⟩] :=
  claim_C4_shade_ordering exShades (by decide)

/-! ### C6: the component scaffolder (source lines 1050–1111) -/

/-- Lowercase ASCII letters. -/
def isLowerCP (c : Nat) : Bool := 97 ≤ c && c ≤ 122

/-- Uppercase ASCII letters. -/
def isUpperCP (c : Nat) : Bool := 65 ≤ c && c ≤ 90

/-- `replace(/([a-z])([A-Z])/g, '$1-$2')`: a hyphen between each
lower-to-upper boundary (the matched uppercase letter cannot start another
match, so scanning pairwise is equivalent to the global regex). -/
def camelSplit : List Nat → List Nat
  | [] => []
  | [c] => [c]
  | a :: b :: t =>
    if isLowerCP a && isUpperCP b then a :: 45 :: camelSplit (b :: t)
    else a :: camelSplit (b :: t)

/-- The class `[\s_]` of `toKebabCase`. -/
def isWsUnderscoreCP (c : Nat) : Bool := isJsWsCP c || c == 95

mutual
/-- `replace(/[\s_]+/g, '-')`: each run of whitespace/underscores becomes one
hyphen. -/
def wsRunsToHyphen : List Nat → List Nat
  | [] => []
  | c :: t => if isWsUnderscoreCP c then 45 :: wsRunsSkipH t else c :: wsRunsToHyphen t
def wsRunsSkipH : List Nat → List Nat
  | [] => []
  | c :: t => if isWsUnderscoreCP c then wsRunsSkipH t else c :: wsRunsToHyphen t
end

/-- `toKebabCase` (source lines 79–84). -/
def toKebabCase (s : JSStr) : JSStr := (wsRunsToHyphen (camelSplit s)).map lowerCP

mutual
/-- `replace(/\s+/g, '_')` (the folder name derivation, source line 1051). -/
def wsRunsToUnderscore : List Nat → List Nat
  | [] => []
  | c :: t => if isJsWsCP c then 95 :: wsRunsSkipU t else c :: wsRunsToUnderscore t
def wsRunsSkipU : List Nat → List Nat
  | [] => []
  | c :: t => if isJsWsCP c then wsRunsSkipU t else c :: wsRunsToUnderscore t
end

/-- A file-system path: segments below the project root. -/
abbrev FsPath := List JSStr

/-- A model file system: known directories and files with contents. -/
structure FileSys where
  dirs : List FsPath
  files : List (FsPath × JSStr)
deriving DecidableEq

/-- `fs.existsSync`. -/
def fsExists (fs : FileSys) (p : FsPath) : Bool :=
  fs.dirs.any (fun d => d == p) || fs.files.any (fun f => f.1 == p)

/-- `fs.mkdirSync(p, { recursive: true })`. -/
def fsMkdir (fs : FileSys) (p : FsPath) : FileSys := ⟨p :: fs.dirs, fs.files⟩

/-- Overwrite an existing file entry or append a new one. -/
def listWrite (l : List (FsPath × JSStr)) (p : FsPath) (c : JSStr) :
    List (FsPath × JSStr) :=
  if l.any (fun f => f.1 == p) then l.map (fun f => if f.1 == p then (p, c) else f)
  else l ++ [(p, c)]

/-- `fs.writeFileSync`. -/
def fsWrite (fs : FileSys) (p : FsPath) (c : JSStr) : FileSys :=
  ⟨fs.dirs, listWrite fs.files p c⟩

/-- Read a file back (first entry wins, as a real file system would). -/
def fsRead (fs : FileSys) (p : FsPath) : Option JSStr :=
  (fs.files.find? (fun f => f.1 == p)).map Prod.snd

/-- `config.componentTemplate` flags. -/
structure TemplateCfg where
  njk : Bool
  scss : Bool
  js : Bool
deriving DecidableEq

/-- `config.componentTemplate` of `figma.config.js`: all three files enabled. -/
def figmaTemplateCfg : TemplateCfg := ⟨true, true, true⟩

/-- `path.join(ROOT_DIR, config.componentsOutput)` with
`componentsOutput = 'src/views/components'`. -/
def componentsRoot : FsPath := [jstr "src", jstr "views", jstr "components"]

/-- The component directory: spaces→underscore folder name under the root. -/
def componentDirOf (name : JSStr) : FsPath := componentsRoot ++ [wsRunsToUnderscore name]

def njkPathOf (name : JSStr) : FsPath := componentDirOf name ++ [toKebabCase name ++ jstr ".njk"]

def scssPathOf (name : JSStr) : FsPath := componentDirOf name ++ [toKebabCase name ++ jstr ".scss"]

def jsPathOf (name : JSStr) : FsPath := componentDirOf name ++ [toKebabCase name ++ jstr ".js"]

/-- The Nunjucks skeleton (source lines 1068–1076). -/
def njkContent (componentName fileName : JSStr) : JSStr :=
  jstr "\x7b# " ++ componentName ++ jstr " Component - Auto-generated from Figma #\x7d" ++ [10] ++
  jstr "<section class=\"" ++ fileName ++ jstr "\" aria-label=\"" ++ componentName ++
    jstr "\">" ++ [10] ++
  jstr "    <div class=\"container\">" ++ [10] ++
  jstr "        <div class=\"" ++ fileName ++ jstr "__content\">" ++ [10] ++
  jstr "            <!-- " ++ componentName ++ jstr " content here -->" ++ [10] ++
  jstr "        </div>" ++ [10] ++
  jstr "    </div>" ++ [10] ++
  jstr "</section>" ++ [10]

/-- The SCSS skeleton (source lines 1081–1090). -/
def scssContent (componentName fileName : JSStr) : JSStr :=
  jstr "@import \"@scss/settings.scss\";" ++ [10] ++ [10] ++
  jstr "." ++ fileName ++ jstr " \x7b" ++ [10] ++
  jstr "    // " ++ componentName ++ jstr " component styles" ++ [10] ++
  jstr "    " ++ [10] ++
  jstr "    &__content \x7b" ++ [10] ++
  jstr "        // Content styles" ++ [10] ++
  jstr "    \x7d" ++ [10] ++
  jstr "\x7d" ++ [10]

/-- The JS skeleton (source lines 1095–1105). -/
def jsContent (componentName fileName : JSStr) : JSStr :=
  jstr "import " ++ [39] ++ jstr "./" ++ fileName ++ jstr ".scss" ++ [39] ++ jstr ";" ++ [10] ++
  jstr "import init from " ++ [39] ++ jstr "@js/shared/initialization" ++ [39] ++
    jstr ";" ++ [10] ++ [10] ++
  jstr "/**" ++ [10] ++
  jstr " * " ++ componentName ++ jstr " Component" ++ [10] ++
  jstr " * Auto-generated from Figma" ++ [10] ++
  jstr " */" ++ [10] ++
  jstr "init(document.querySelectorAll(" ++ [39] ++ jstr "." ++ fileName ++ [39] ++
    jstr "), wrapper => \x7b" ++ [10] ++
  jstr "    // " ++ componentName ++ jstr " initialization logic" ++ [10] ++
  jstr "\x7d);" ++ [10]

/-- The up-to-three skeleton writes of `scaffoldComponent` (source lines
1067–1107), in source order. -/
def scaffoldWrites (tmpl : TemplateCfg) (name : JSStr) (fs1 : FileSys) : FileSys :=
  let fileName := toKebabCase name
  let fs2 := if tmpl.njk then fsWrite fs1 (njkPathOf name) (njkContent name fileName) else fs1
  let fs3 := if tmpl.scss then fsWrite fs2 (scssPathOf name) (scssContent name fileName) else fs2
  if tmpl.js then fsWrite fs3 (jsPathOf name) (jsContent name fileName) else fs3

/-- `scaffoldComponent` (source lines 1050–1111): skip when the component
directory already exists, otherwise create it and write the skeleton files;
the Boolean reports whether creation occurred. -/
def scaffoldComponent (tmpl : TemplateCfg) (name : JSStr) (fs : FileSys) :
    Bool × FileSys :=
  if fsExists fs (componentDirOf name) then (false, fs)
  else (true, scaffoldWrites tmpl name (fsMkdir fs (componentDirOf name)))

theorem find?_listWrite_self : ∀ (l : List (FsPath × JSStr)) (p : FsPath) (c : JSStr),
    (listWrite l p c).find? (fun f => f.1 == p) = some (p, c)
  | [], p, c => by simp [listWrite]
  | f :: t, p, c => by
    rw [listWrite]
    by_cases hf : (f.1 == p) = true
    · rw [if_pos (by simp [List.any_cons, hf])]
      simp only [List.map_cons, if_pos hf]
      rw [@List.find?_cons_of_pos _ (fun e => e.1 == p) (p, c) _ (by simp)]
    · by_cases ht : t.any (fun f => f.1 == p) = true
      · rw [if_pos (by
          rw [List.any_cons]
          simp only [Bool.or_eq_true]
          exact Or.inr ht)]
        simp only [List.map_cons, if_neg hf]
        rw [@List.find?_cons_of_neg _ (fun e => e.1 == p) f _ hf]
        have hind := find?_listWrite_self t p c
        rw [listWrite, if_pos ht] at hind
        exact hind
      · rw [if_neg (by
          rw [List.any_cons]
          simp only [Bool.or_eq_true]
          rintro (h | h)
          · exact hf h
          · exact ht h)]
        rw [List.cons_append, @List.find?_cons_of_neg _ (fun e => e.1 == p) f _ hf]
        have hind := find?_listWrite_self t p c
        rw [listWrite, if_neg ht] at hind
        exact hind

theorem find?_map_replace (q p : FsPath) (c : JSStr) (h : q ≠ p) :
    ∀ (l : List (FsPath × JSStr)),
      (l.map (fun f => if f.1 == p then (p, c) else f)).find? (fun f => f.1 == q) =
        l.find? (fun f => f.1 == q)
  | [] => rfl
  | f :: t => by
    simp only [List.map_cons]
    by_cases hf : (f.1 == p) = true
    · rw [if_pos hf]
      have hf1 : f.1 = p := by simpa using hf
      have hpq : ¬(((p, c) : FsPath × JSStr).1 == q) = true := by
        simp only [beq_iff_eq]
        exact fun hq => h hq.symm
      have hfq : ¬(f.1 == q) = true := by
        rw [hf1]
        simpa using fun hq => h hq.symm
      rw [@List.find?_cons_of_neg _ (fun e => e.1 == q) (p, c) _ hpq,
          @List.find?_cons_of_neg _ (fun e => e.1 == q) f _ hfq]
      exact find?_map_replace q p c h t
    · rw [if_neg hf]
      by_cases hfq : (f.1 == q) = true
      · rw [@List.find?_cons_of_pos _ (fun e => e.1 == q) f _ hfq,
            @List.find?_cons_of_pos _ (fun e => e.1 == q) f _ hfq]
      · rw [@List.find?_cons_of_neg _ (fun e => e.1 == q) f _ hfq,
            @List.find?_cons_of_neg _ (fun e => e.1 == q) f _ hfq]
        exact find?_map_replace q p c h t

theorem find?_append_single (q p : FsPath) (c : JSStr) (h : q ≠ p) :
    ∀ (l : List (FsPath × JSStr)),
      (l ++ [(p, c)]).find? (fun f => f.1 == q) = l.find? (fun f => f.1 == q)
  | [] => by
    rw [List.nil_append,
      @List.find?_cons_of_neg _ (fun e => e.1 == q) (p, c) _ (by
        simp only [beq_iff_eq]
        exact fun hq => h hq.symm)]
  | f :: t => by
    rw [List.cons_append]
    by_cases hfq : (f.1 == q) = true
    · rw [@List.find?_cons_of_pos _ (fun e => e.1 == q) f _ hfq,
          @List.find?_cons_of_pos _ (fun e => e.1 == q) f _ hfq]
    · rw [@List.find?_cons_of_neg _ (fun e => e.1 == q) f _ hfq,
          @List.find?_cons_of_neg _ (fun e => e.1 == q) f _ hfq]
      exact find?_append_single q p c h t

theorem fsRead_fsWrite_self (fs : FileSys) (p : FsPath) (c : JSStr) :
    fsRead (fsWrite fs p c) p = some c := by
  rw [fsRead, fsWrite]
  simp only
  rw [find?_listWrite_self]
  rfl

theorem fsRead_fsWrite_other (fs : FileSys) (p : FsPath) (c : JSStr) (q : FsPath)
    (h : q ≠ p) : fsRead (fsWrite fs p c) q = fsRead fs q := by
  rw [fsRead, fsWrite, fsRead]
  simp only
  rw [listWrite]
  by_cases hany : fs.files.any (fun f => f.1 == p) = true
  · rw [if_pos hany, find?_map_replace q p c h]
  · rw [if_neg hany, find?_append_single q p c h]

theorem fsRead_condWrite (b : Bool) (fs : FileSys) (pw p : FsPath) (c : JSStr) :
    fsRead (if b then fsWrite fs pw c else fs) p =
      if b = true ∧ p = pw then some c else fsRead fs p := by
  by_cases hb : b = true
  · rw [if_pos hb]
    by_cases hp : p = pw
    · rw [if_pos ⟨hb, hp⟩, hp, fsRead_fsWrite_self]
    · rw [if_neg (fun hc => hp hc.2), fsRead_fsWrite_other _ _ _ _ hp]
  · rw [if_neg hb, if_neg (fun hc => hb hc.1)]

theorem dirs_condWrite (b : Bool) (fs : FileSys) (pw : FsPath) (c : JSStr) :
    (if b then fsWrite fs pw c else fs).dirs = fs.dirs := by
  by_cases hb : b = true
  · rw [if_pos hb]
    rfl
  · rw [if_neg hb]

theorem dirs_scaffoldWrites (tmpl : TemplateCfg) (name : JSStr) (fs1 : FileSys) :
    (scaffoldWrites tmpl name fs1).dirs = fs1.dirs := by
  simp only [scaffoldWrites]
  rw [dirs_condWrite, dirs_condWrite, dirs_condWrite]

theorem fsRead_scaffoldWrites (tmpl : TemplateCfg) (name : JSStr) (fs1 : FileSys)
    (p : FsPath) :
    fsRead (scaffoldWrites tmpl name fs1) p =
      if tmpl.js = true ∧ p = jsPathOf name then some (jsContent name (toKebabCase name))
      else if tmpl.scss = true ∧ p = scssPathOf name then
        some (scssContent name (toKebabCase name))
      else if tmpl.njk = true ∧ p = njkPathOf name then
        some (njkContent name (toKebabCase name))
      else fsRead fs1 p := by
  simp only [scaffoldWrites]
  rw [fsRead_condWrite, fsRead_condWrite, fsRead_condWrite]

theorem suffix_path_ne {pre : FsPath} {s a b : JSStr} (h : a.length ≠ b.length) :
    pre ++ [s ++ a] ≠ pre ++ [s ++ b] := by
  intro he
  have h1 : [s ++ a] = [s ++ b] := List.append_cancel_left he
  have h2 : s ++ a = s ++ b := by simpa using h1
  have h3 : a = b := List.append_cancel_left h2
  exact h (h3 ▸ rfl)

theorem njk_ne_scss (name : JSStr) : njkPathOf name ≠ scssPathOf name := by
  rw [njkPathOf, scssPathOf, componentDirOf]
  exact suffix_path_ne (by decide)

theorem njk_ne_js (name : JSStr) : njkPathOf name ≠ jsPathOf name := by
  rw [njkPathOf, jsPathOf, componentDirOf]
  exact suffix_path_ne (by decide)

theorem scss_ne_js (name : JSStr) : scssPathOf name ≠ jsPathOf name := by
  rw [scssPathOf, jsPathOf, componentDirOf]
  exact suffix_path_ne (by decide)

/-- **C6.** The scaffolder is idempotent: if the derived folder exists it
returns `false` and changes nothing; otherwise it returns `true`, creates the
folder, writes exactly the enabled skeleton files (named with the kebab-case
asset name) and touches no other file; and a second invocation with the same
name reports `false` and leaves the file system unchanged. -/
theorem claim_C6_scaffold_idempotent (tmpl : TemplateCfg) (name : JSStr) (fs : FileSys) :
    (fsExists fs (componentDirOf name) = true → scaffoldComponent tmpl name fs = (false, fs)) ∧
    (fsExists fs (componentDirOf name) = false →
      (scaffoldComponent tmpl name fs).1 = true ∧
      (scaffoldComponent tmpl name fs).2.dirs = componentDirOf name :: fs.dirs ∧
      (fsRead (scaffoldComponent tmpl name fs).2 (njkPathOf name) =
        if tmpl.njk then some (njkContent name (toKebabCase name))
        else fsRead fs (njkPathOf name)) ∧
      (fsRead (scaffoldComponent tmpl name fs).2 (scssPathOf name) =
        if tmpl.scss then some (scssContent name (toKebabCase name))
        else fsRead fs (scssPathOf name)) ∧
      (fsRead (scaffoldComponent tmpl name fs).2 (jsPathOf name) =
        if tmpl.js then some (jsContent name (toKebabCase name))
        else fsRead fs (jsPathOf name)) ∧
      (∀ p : FsPath, p ≠ njkPathOf name → p ≠ scssPathOf name → p ≠ jsPathOf name →
        fsRead (scaffoldComponent tmpl name fs).2 p = fsRead fs p)) ∧
    scaffoldComponent tmpl name (scaffoldComponent tmpl name fs).2 =
      (false, (scaffoldComponent tmpl name fs).2) := by
  have hread : ∀ p, fsRead (fsMkdir fs (componentDirOf name)) p = fsRead fs p :=
    fun p => rfl
  refine ⟨?_, ?_, ?_⟩
  · intro hex
    rw [scaffoldComponent, if_pos hex]
  · intro hex
    rw [scaffoldComponent, if_neg (by simp [hex])]
    refine ⟨rfl, ?_, ?_, ?_, ?_, ?_⟩
    · rw [dirs_scaffoldWrites]
      rfl
    · rw [fsRead_scaffoldWrites]
      rw [if_neg (fun hc => njk_ne_js name hc.2), if_neg (fun hc => njk_ne_scss name hc.2)]
      by_cases hn : tmpl.njk = true
      · rw [if_pos ⟨hn, rfl⟩, if_pos hn]
      · rw [if_neg (fun hc => hn hc.1), if_neg hn, hread]
    · rw [fsRead_scaffoldWrites]
      rw [if_neg (fun hc => scss_ne_js name hc.2)]
      by_cases hs : tmpl.scss = true
      · rw [if_pos ⟨hs, rfl⟩, if_pos hs]
      · rw [if_neg (fun hc => hs hc.1), if_neg hs,
          if_neg (fun hc => njk_ne_scss name hc.2.symm), hread]
    · rw [fsRead_scaffoldWrites]
      by_cases hj : tmpl.js = true
      · rw [if_pos ⟨hj, rfl⟩, if_pos hj]
      · rw [if_neg (fun hc => hj hc.1), if_neg hj,
          if_neg (fun hc => scss_ne_js name hc.2.symm),
          if_neg (fun hc => njk_ne_js name hc.2.symm), hread]
    · intro p hpn hps hpj
      rw [fsRead_scaffoldWrites]
      rw [if_neg (fun hc => hpj hc.2), if_neg (fun hc => hps hc.2),
        if_neg (fun hc => hpn hc.2), hread]
  · by_cases hex : fsExists fs (componentDirOf name) = true
    · have h1 : scaffoldComponent tmpl name fs = (false, fs) := by
        rw [scaffoldComponent, if_pos hex]
      rw [h1]
      exact h1
    · have h1 : scaffoldComponent tmpl name fs =
          (true, scaffoldWrites tmpl name (fsMkdir fs (componentDirOf name))) := by
        rw [scaffoldComponent, if_neg hex]
      rw [h1]
      show scaffoldComponent tmpl name
          (scaffoldWrites tmpl name (fsMkdir fs (componentDirOf name))) =
        (false, scaffoldWrites tmpl name (fsMkdir fs (componentDirOf name)))
      rw [scaffoldComponent, if_pos ?hex2]
      case hex2 =>
        rw [fsExists, dirs_scaffoldWrites]
        simp [fsMkdir]

theorem claim_C6_scaffold_idempotent_witness :
    (scaffoldComponent figmaTemplateCfg (jstr "Hero Banner") ⟨[], []⟩).1 = true ∧
    fsRead (scaffoldComponent figmaTemplateCfg (jstr "Hero Banner") ⟨[], []⟩).2
        (njkPathOf (jstr "Hero Banner")) =
      some (njkContent (jstr "Hero Banner") (toKebabCase (jstr "Hero Banner"))) ∧
    scaffoldComponent figmaTemplateCfg (jstr "Hero Banner")
        (scaffoldComponent figmaTemplateCfg (jstr "Hero Banner") ⟨[], []⟩).2 =
      (false, (scaffoldComponent figmaTemplateCfg (jstr "Hero Banner") ⟨[], []⟩).2) := by
  have h := claim_C6_scaffold_idempotent figmaTemplateCfg (jstr "Hero Banner") ⟨[], []⟩
  have h2 := h.2.1 (by decide)
  refine ⟨h2.1, ?_, h.2.2⟩
  have h3 := h2.2.2.1
  simpa [figmaTemplateCfg] using h3

/-! ### C8: determinism of the node-colour SCSS generation (source lines 277–400) -/

/-- Insertion-ordered grouping by `color.group` (source lines 360–366; JS
object keys iterate in insertion order for these non-integer-like names). -/
def groupByKey (colors : List NodeColor) : List (JSStr × List NodeColor) :=
  colors.foldl (fun acc c =>
    if acc.any (fun p => p.1 == c.group) then
      acc.map (fun p => if p.1 == c.group then (p.1, p.2 ++ [c]) else p)
    else acc ++ [(c.group, [c])]) []

/-- `replace(/^_/, '')` on the sanitized shade (source line 381). -/
def stripLeadingUnderscore : JSStr → JSStr
  | 95 :: t => t
  | s => s

/-- The global replacement of `-_<digit>` by `-<digit>` on the sanitized map
key (source line 393). -/
def cleanMapKey : List Nat → List Nat
  | 45 :: 95 :: c :: rest =>
    if isDigitCP c then 45 :: c :: cleanMapKey rest
    else 45 :: cleanMapKey (95 :: c :: rest)
  | c :: rest => c :: cleanMapKey rest
  | [] => []

/-- The generated header up to the timestamp (source lines 352–355). -/
def nodeScssHeaderPre : JSStr :=
  jstr "/* Color Tokens - Auto-generated from Figma Node Structure" ++ [10] ++
  jstr " * DO NOT EDIT MANUALLY - Run " ++ [39] ++ jstr "npm run figma:tokens" ++ [39] ++
  jstr " to update" ++ [10] ++
  jstr " * Last synced: "

/-- The generated header after the timestamp: a newline, a ruler of 75 `=`
characters closing the block comment, and a blank line. -/
def nodeScssHeaderPost : JSStr :=
  [10, 32] ++ List.replicate 75 61 ++ jstr "*/" ++ [10] ++ [10]

/-- One `$figma-<group>-<shade>: <value>;` line (source lines 379–384). -/
def nodeColorVarLine (c : NodeColor) : JSStr :=
  jstr "$figma-" ++ sanitizeScssName c.group ++ jstr "-" ++
    stripLeadingUnderscore (sanitizeScssName c.shade) ++ jstr ": " ++ c.value ++
    jstr ";" ++ [10]

/-- One group section: comment line, sorted variable lines, blank line
(source lines 369–386). -/
def nodeColorGroupSection (p : JSStr × List NodeColor) : JSStr :=
  jstr "// " ++ p.1 ++ [10] ++
  ((sortShades p.2).foldl (fun acc c => acc ++ nodeColorVarLine c) []) ++ [10]

/-- The `$figma-colors` map entries, comma-separated with a bare newline after
the last (source lines 391–396). -/
def nodeColorMapEntries : List NodeColor → JSStr
  | [] => []
  | [c] => jstr "    \"" ++ cleanMapKey (sanitizeScssName c.name) ++ jstr "\": " ++
      c.value ++ [10]
  | c :: rest =>
    jstr "    \"" ++ cleanMapKey (sanitizeScssName c.name) ++ jstr "\": " ++ c.value ++
      [44, 10] ++ nodeColorMapEntries rest

/-- Everything `generateNodeColorScss` emits after the header. -/
def nodeColorBody (colors : List NodeColor) : JSStr :=
  ((groupByKey colors).foldl (fun acc p => acc ++ nodeColorGroupSection p) []) ++
  jstr "// Figma Color Map" ++ [10] ++ jstr "$figma-colors: (" ++ [10] ++
  nodeColorMapEntries colors ++ jstr ");" ++ [10]

/-- `generateNodeColorScss` (source lines 350–400), with the wall-clock
timestamp as an explicit parameter. -/
def generateNodeColorScss (timestamp : JSStr) (colors : List NodeColor) : JSStr :=
  nodeScssHeaderPre ++ timestamp ++ nodeScssHeaderPost ++ nodeColorBody colors

/-- The node-colour pipeline of `sync`: extract, then generate. -/
def nodeColorPipeline (timestamp : JSStr) (fd : FileData) : JSStr :=
  generateNodeColorScss timestamp (extractColorsFromNodes fd)

/-- **C8.** The node-colour extraction-to-SCSS pipeline is deterministic: a
rerun on the same input produces the identical string, and two runs differing
only in wall-clock time produce byte-identical output except for the embedded
`Last synced:` timestamp (the shared prefix is the header before the
timestamp, the shared suffix everything after it). -/
theorem claim_C8_pipeline_deterministic (fd : FileData) (ts1 ts2 : JSStr) :
    nodeColorPipeline ts1 fd = nodeColorPipeline ts1 fd ∧
    ∃ pre suf : JSStr,
      nodeColorPipeline ts1 fd = pre ++ ts1 ++ suf ∧
      nodeColorPipeline ts2 fd = pre ++ ts2 ++ suf ∧
      pre = nodeScssHeaderPre ∧
      suf = nodeScssHeaderPost ++ nodeColorBody (extractColorsFromNodes fd) := by
  refine ⟨rfl, nodeScssHeaderPre,
    nodeScssHeaderPost ++ nodeColorBody (extractColorsFromNodes fd), ?_, ?_, rfl, rfl⟩
  · rw [nodeColorPipeline, generateNodeColorScss]
    simp [List.append_assoc]
  · rw [nodeColorPipeline, generateNodeColorScss]
    simp [List.append_assoc]
